import Mathlib

/-!
Verification development for the Periscope MEV opportunity-detection
pipeline (TypeScript sources: `src/strategies/strategy-manager.ts`,
`src/strategies/base-strategy.ts`, `src/strategies/sandwich-strategy.ts`,
`src/strategies/arbitrage-strategy.ts`, `src/config/dex-config.ts`).

Modelling conventions:
- JavaScript numbers are modelled as exact rationals (`ℚ`); machine times
  (`Date.now()`) as `Int`.  All concrete inputs used in theorems stay well
  inside the range where IEEE-754 doubles are exact, so the rational model
  agrees with the source on every input exercised here.
- Node `Buffer` values are modelled by their hex-digit expansion, a
  `List Nat` of digits `0..15` (the source always works on
  `buf.toString('hex')`).
- `Math.random()` draws are passed in as explicit parameters `r` with
  `0 ≤ r < 1` where a theorem needs the bound.
- JavaScript objects used as string-keyed maps are modelled as association
  lists in property-insertion order, mirroring JS enumeration-order
  semantics (`assocFind` / `assocSet` / property deletion as `filter`).
- Thrown exceptions are modelled with `Except`; the concrete strategies'
  `analyze` bodies wrap everything in `try`/`catch` and are total, so they
  embed as total functions.
- The opportunity `id` (a random uuid) and the human-readable
  `executionPlan` string are not modelled; no claim mentions them.
-/

/-! ### Hex buffers -/

/-- A buffer rendered as its hex digits (each entry is a digit `0..15`),
the form in which the source inspects every payload
(`outMsg.toString('hex')`). -/
abbrev HexStr := List Nat

/-- First index at which `pat` occurs in `l`
(JS `String.prototype.indexOf`, `none` for not found). -/
def hexFindIdx (pat : HexStr) : HexStr → Option Nat
  | [] => if pat.isPrefixOf ([] : HexStr) then some 0 else none
  | d :: t =>
    if pat.isPrefixOf (d :: t) then some 0
    else (hexFindIdx pat t).map (· + 1)

/-- JS `String.prototype.includes`. -/
def hexHas (pat l : HexStr) : Bool := (hexFindIdx pat l).isSome

/-- JS `str.substring(start, start + len)` on a hex string. -/
def hexSlice (l : HexStr) (start len : Nat) : HexStr := (l.drop start).take len

/-- JS `parseInt(hexDigits, 16)`.  Exact `Nat` arithmetic; every value the
theorems exercise is below `2^53`, where the source's double-precision
`parseInt` is also exact. -/
def hexParse (l : HexStr) : Nat := l.foldl (fun a d => a * 16 + d) 0

/-! ### Packets and transactions (`searcher.ts` `MempoolPacket`, duck-typed) -/

/-- The transaction-shaped view of a payload: the fields the strategies
probe (`tx.outMsgs`, `tx.data`, `tx.hash`).  `outMsgs` entries and `data`
are buffers, modelled by their hex digits. -/
structure TxData where
  outMsgs : List HexStr := []
  dataHex : Option HexStr := none
  hash : Option String := none
deriving DecidableEq

/-- The duck-typed `packet.data` payload.  The extractor probes it for a
`transactions` list, a `messages` list, or an array shape; the sandwich
strategy reads it directly as a transaction (`tx` view).  A single JS value
can expose all of these facets at once, hence one record with optional
facets. -/
structure DataField where
  transactions : Option (List TxData) := none
  messages : Option (List TxData) := none
  asList : Option (List TxData) := none
  tx : TxData := {}
deriving DecidableEq

/-- `MempoolPacket` from `searcher.ts`. -/
structure MempoolPacket where
  id : String
  timestamp : Int
  data : Option DataField := none
  transactions : Option (List TxData) := none
deriving DecidableEq

/-! ### Opportunities (`base-strategy.ts`) -/

/-- Strategy-specific `details` payloads (`ArbitrageOpportunityDetails`,
`SandwichOpportunityDetails`); `plain` stands for the opaque details of a
generic registered strategy. -/
inductive OppDetails where
  | arb (buyDex sellDex tokenPair : String)
        (priceDifferencePercent buyAmount sellAmount estimatedProfit estimatedGas : ℚ)
  | sandwichDetails (targetTxHash tokenPair : String)
        (targetSwapSize estimatedPriceImpact frontRunAmount backRunAmount
         estimatedFrontRunGas estimatedBackRunGas totalGasCost : ℚ)
  | plain (tag : Nat)
deriving DecidableEq

/-- `MEVOpportunity` from `base-strategy.ts` (`rawData` is flattened into
its two fields `packetId` and `timestamp`). -/
structure MEVOpportunity where
  strategy : String
  timestamp : Int
  profitEstimate : ℚ
  confidence : ℚ
  details : OppDetails
  rawPacketId : String
  rawTimestamp : Int
deriving DecidableEq

/-! ### Sandwich strategy (`sandwich-strategy.ts`) -/

/-- `SandwichConfig`. -/
structure SandwichConfig where
  enabled : Bool
  minConfidence : ℚ
  minProfitEstimate : ℚ
  minTargetSwapSize : ℚ
  maxFrontRunGas : ℚ
  maxBackRunGas : ℚ
  targetPairs : List String
  slippageTolerance : ℚ
deriving DecidableEq

/-- The defaults installed by the `SandwichStrategy` constructor. -/
def defaultSandwichConfig : SandwichConfig :=
  { enabled := true
    minConfidence := 8/10
    minProfitEstimate := 5/100
    minTargetSwapSize := 10
    maxFrontRunGas := 3/100
    maxBackRunGas := 3/100
    targetPairs := ["TON/USDT", "TON/USDC", "JETTON/TON"]
    slippageTolerance := 1 }

/-- The DeDust swap op code `'01e18801'` as hex digits. -/
def dedustSwapOpCode : HexStr := [0, 1, 14, 1, 8, 8, 0, 1]

/-- The `outMsgs` arm of `extractSwapDetails`: find the swap op code, then
try byte offsets `8, 16, 24, 32` after it and accept the first 16-hex-digit
field that parses to a plausible (non-zero, `< 1e18`) amount; the amount is
scaled by `1e9` (nano-TON to TON). -/
def extractAmountFromOutMsg (h : HexStr) : Option ℚ :=
  match hexFindIdx dedustSwapOpCode h with
  | none => none
  | some opCodeIndex =>
    [8, 16, 24, 32].findSome? fun offset =>
      if opCodeIndex + offset + 16 ≤ h.length then
        let amountValue := hexParse (hexSlice h (opCodeIndex + offset) 16)
        if 0 < amountValue ∧ amountValue < 10 ^ 18 then
          some ((amountValue : ℚ) / 10 ^ 9)
        else none
      else none

/-- The `tx.data` arm of `extractSwapDetails`.  On a buffer's hex string the
indicators `'swap'`/`'exchange'` can never occur (their letters are not hex
digits), so only the `'01e18801'` test can fire; the regex
`[0-9a-f]\x7b8,16\x7d` then necessarily matches greedily at position 0,
taking up to 16 digits (at least 8 exist because the op code was found). -/
def extractAmountFromDataHex (d : HexStr) : Option ℚ :=
  if hexHas dedustSwapOpCode d then
    let amountValue := hexParse (d.take 16)
    if 0 < amountValue ∧ amountValue < 10 ^ 18 then
      some ((amountValue : ℚ) / 10 ^ 9)
    else none
  else none

/-- Swap details as produced by `extractSwapDetails`.  `tokenPair` is an
`Option` because the fallback arm reads `targetPairs[0]`, which is
`undefined` when the configured list is empty. -/
structure SwapDetails where
  tokenPair : Option String
  swapSize : ℚ
deriving DecidableEq

/-- The non-fallback part of `extractSwapDetails`: the `outMsgs[0]` scan
followed by the `tx.data` scan; both name the pair `'TON/USDT'`. -/
def sandwichRealExtract (tx : TxData) : Option SwapDetails :=
  let fromOut :=
    match tx.outMsgs.head? with
    | some h => extractAmountFromOutMsg h
    | none => none
  match fromOut with
  | some s => some ⟨some "TON/USDT", s⟩
  | none =>
    match tx.dataHex with
    | some d => (extractAmountFromDataHex d).map fun s => ⟨some "TON/USDT", s⟩
    | none => none

/-- `extractSwapDetails`: real extraction, falling back to the configured
first target pair and a random size `minTargetSwapSize + random()*20`
(`rFall` is the `Math.random()` draw). -/
def extractSwapDetails (cfg : SandwichConfig) (tx : TxData) (rFall : ℚ) : SwapDetails :=
  match sandwichRealExtract tx with
  | some det => det
  | none => ⟨cfg.targetPairs.head?, cfg.minTargetSwapSize + rFall * 20⟩

/-- `calculatePriceImpact`: base 0.1%, plus 0.05% per 10 TON above the
configured minimum, capped at 5%. -/
def calculatePriceImpact (cfg : SandwichConfig) (swapSize : ℚ) : ℚ :=
  let impact : ℚ := 1/10 + (swapSize - cfg.minTargetSwapSize) / 10 * (5/100)
  min impact 5

/-- `calculateOptimalFrontRunAmount`. -/
def calculateOptimalFrontRunAmount (targetSwapSize priceImpact : ℚ) : ℚ :=
  targetSwapSize * (15/100 + priceImpact / 100)

/-- `calculateOptimalBackRunAmount` (`rBack` is the `Math.random()` draw). -/
def calculateOptimalBackRunAmount (targetSwapSize frontRunAmount rBack : ℚ) : ℚ :=
  frontRunAmount + targetSwapSize * (5/100 + rBack * (5/100))

/-- `calculateProfitEstimate` (`rCap` is the `Math.random()` draw for the
60-80% capture rate; the front/back-run amounts are accepted but unused,
as in the source). -/
def calculateProfitEstimate (targetSwapSize priceImpact frontRunAmount backRunAmount
    gasCost rCap : ℚ) : ℚ :=
  let captureRate := 6/10 + rCap * (2/10)
  let grossProfit := targetSwapSize * priceImpact / 100 * captureRate
  grossProfit - gasCost

/-- `calculateConfidence` for the sandwich strategy. -/
def sandwichConfidence (cfg : SandwichConfig) (swapSize priceImpact profitEstimate : ℚ) : ℚ :=
  let base : ℚ := 7/10
  let swapSizeFactor := min (swapSize / cfg.minTargetSwapSize * (5/100)) (15/100)
  let impactFactor := min (priceImpact * (2/100)) (1/10)
  let profitFactor := min (profitEstimate / cfg.minProfitEstimate * (2/100)) (1/10)
  min (base + swapSizeFactor + impactFactor + profitFactor) (98/100)

/-- `SandwichStrategy.analyze`.  Note: the source never consults
`cfg.enabled` here.  The three `Math.random()` draws (fallback size,
back-run fraction, capture rate) are the parameters `rFall rBack rCap`. -/
def sandwichAnalyze (cfg : SandwichConfig) (pkt : MempoolPacket)
    (rFall rBack rCap : ℚ) : List MEVOpportunity :=
  match pkt.data with
  | none => []
  | some d =>
    let tx := d.tx
    let det := extractSwapDetails cfg tx rFall
    match det.tokenPair with
    | none => []
    | some tp =>
      if tp ∉ cfg.targetPairs then []
      else if det.swapSize < cfg.minTargetSwapSize then []
      else
        let estimatedPriceImpact := calculatePriceImpact cfg det.swapSize
        if estimatedPriceImpact < 1/2 then []
        else
          let frontRunAmount := calculateOptimalFrontRunAmount det.swapSize estimatedPriceImpact
          let backRunAmount := calculateOptimalBackRunAmount det.swapSize frontRunAmount rBack
          let estimatedFrontRunGas := min cfg.maxFrontRunGas (1/100 + frontRunAmount * (1/1000))
          let estimatedBackRunGas := min cfg.maxBackRunGas (1/100 + backRunAmount * (1/1000))
          let totalGasCost := estimatedFrontRunGas + estimatedBackRunGas
          let profitEstimate := calculateProfitEstimate det.swapSize estimatedPriceImpact
            frontRunAmount backRunAmount totalGasCost rCap
          if profitEstimate < cfg.minProfitEstimate then []
          else
            let confidence := sandwichConfidence cfg det.swapSize estimatedPriceImpact profitEstimate
            if confidence < cfg.minConfidence then []
            else
              [{ strategy := "sandwich"
                 timestamp := pkt.timestamp
                 profitEstimate := profitEstimate
                 confidence := confidence
                 details := .sandwichDetails (tx.hash.getD "unknown") tp det.swapSize
                   estimatedPriceImpact frontRunAmount backRunAmount
                   estimatedFrontRunGas estimatedBackRunGas totalGasCost
                 rawPacketId := pkt.id
                 rawTimestamp := pkt.timestamp }]

/-! ### Association lists (JS objects in property-insertion order) -/

/-- Property read `obj[key]` on a JS object modelled in insertion order. -/
def assocFind {α β : Type} [DecidableEq α] : List (α × β) → α → Option β
  | [], _ => none
  | (a, b) :: t, x => if a = x then some b else assocFind t x

/-- Property write `obj[key] = v`: an existing key keeps its position, a
new key is appended (JS enumeration-order semantics). -/
def assocSet {α β : Type} [DecidableEq α] : List (α × β) → α → β → List (α × β)
  | [], x, v => [(x, v)]
  | (a, b) :: t, x, v => if a = x then (a, v) :: t else (a, b) :: assocSet t x v

/-- Keys of a JS object, in enumeration order. -/
def assocKeys {α β : Type} (l : List (α × β)) : List α := l.map Prod.fst

/-! ### Arbitrage price cache (`arbitrage-strategy.ts`)

Generic in the venue / pair key types: the source keys by strings, which
are opaque to every cache operation. -/

/-- A `(price, timestamp)` cache entry. -/
structure PriceEntry where
  price : ℚ
  timestamp : Int
deriving DecidableEq

/-- One venue's `Record<tokenPair, PriceEntry>`. -/
abbrev VenueMap (κ : Type) := List (κ × PriceEntry)

/-- `Record<dex, Record<tokenPair, PriceEntry>>`. -/
abbrev PriceCache (δ κ : Type) := List (δ × VenueMap κ)

/-- `PRICE_CACHE_TTL` (ms). -/
def PRICE_CACHE_TTL : Int := 60000

/-- `MAX_CACHE_SIZE` (entries per venue). -/
def MAX_CACHE_SIZE : Nat := 1000

/-- Ascending-timestamp comparison used by the capacity cleanup's
`sort((a, b) => a.timestamp - b.timestamp)`. -/
def tsLE {κ : Type} (a b : κ × PriceEntry) : Prop :=
  a.2.timestamp ≤ b.2.timestamp

instance {κ : Type} : DecidableRel (tsLE (κ := κ)) :=
  fun a b => inferInstanceAs (Decidable (a.2.timestamp ≤ b.2.timestamp))

instance {κ : Type} : IsTotal (κ × PriceEntry) tsLE :=
  ⟨fun a b => le_total a.2.timestamp b.2.timestamp⟩

instance {κ : Type} : IsTrans (κ × PriceEntry) tsLE :=
  ⟨fun _ _ _ h1 h2 => le_trans h1 h2⟩

/-- The per-venue body of `cleanupPriceCache`: drop entries older than the
TTL, then, if more than `MAX_CACHE_SIZE` remain, delete the oldest
`count - MAX_CACHE_SIZE` of them (stable sort by timestamp, take the front,
delete those keys).  `List.insertionSort` is stable, like the JS sort. -/
def cleanupVenue {κ : Type} [DecidableEq κ] (vm : VenueMap κ) (now : Int) : VenueMap κ :=
  let vm1 := vm.filter fun e => decide (now - e.2.timestamp ≤ PRICE_CACHE_TTL)
  if vm1.length > MAX_CACHE_SIZE then
    let victims := (List.insertionSort tsLE vm1).take (vm1.length - MAX_CACHE_SIZE)
    vm1.filter fun e => victims.all fun v => decide (v.1 ≠ e.1)
  else vm1

/-- `cleanupPriceCache`: the venue cleanup applied to every venue. -/
def cleanupPriceCache {δ κ : Type} [DecidableEq δ] [DecidableEq κ]
    (c : PriceCache δ κ) (now : Int) : PriceCache δ κ :=
  c.map fun dv => (dv.1, cleanupVenue dv.2 now)

/-- `getPriceFromCache`: TTL-checked read.  An expired entry is deleted
(the source mutates the cache during the read), hence the returned pair of
result and post-read cache. -/
def getPriceFromCache {δ κ : Type} [DecidableEq δ] [DecidableEq κ]
    (c : PriceCache δ κ) (dex : δ) (tokenPair : κ) (now : Int) :
    Option ℚ × PriceCache δ κ :=
  match assocFind c dex with
  | none => (none, c)
  | some vm =>
    match assocFind vm tokenPair with
    | none => (none, c)
    | some e =>
      if now - e.timestamp > PRICE_CACHE_TTL then
        (none, assocSet c dex (vm.filter fun en => decide (en.1 ≠ tokenPair)))
      else (some e.price, c)

/-- `updatePriceCache`: write `(price, now)` under `(dex, tokenPair)`
(creating the venue map if absent, as the source does), then run
`cleanupPriceCache`. -/
def updatePriceCache {δ κ : Type} [DecidableEq δ] [DecidableEq κ]
    (c : PriceCache δ κ) (dex : δ) (tokenPair : κ) (price : ℚ) (now : Int) :
    PriceCache δ κ :=
  let vm := (assocFind c dex).getD []
  cleanupPriceCache (assocSet c dex (assocSet vm tokenPair ⟨price, now⟩)) now

/-- A sequence of cache writes `(dex, tokenPair, price, now)`, applied in
order. -/
def applyWrites {δ κ : Type} [DecidableEq δ] [DecidableEq κ]
    (c : PriceCache δ κ) (ws : List (δ × κ × ℚ × Int)) : PriceCache δ κ :=
  ws.foldl (fun acc w => updatePriceCache acc w.1 w.2.1 w.2.2.1 w.2.2.2) c

/-- The venue map stored for `dex` (`[]` when the venue is absent; all
cache reads treat a missing venue and an empty venue map identically). -/
def venueAt {δ κ : Type} [DecidableEq δ] (c : PriceCache δ κ) (dex : δ) : VenueMap κ :=
  (assocFind c dex).getD []

/-! ### Arbitrage strategy (`arbitrage-strategy.ts`, `dex-config.ts`) -/

/-- `getSupportedDexes()` from `dex-config.ts`. -/
def supportedDexes : List String := ["DeDust", "Ston.fi", "Megaton"]

/-- `ArbitrageConfig`. -/
structure ArbitrageConfig where
  enabled : Bool
  minConfidence : ℚ
  minProfitEstimate : ℚ
  dexes : List String
  minPriceDifferencePercent : ℚ
  maxSlippage : ℚ
  gasBuffer : ℚ
deriving DecidableEq

/-- The defaults installed by the `ArbitrageStrategy` constructor. -/
def defaultArbitrageConfig : ArbitrageConfig :=
  { enabled := true
    minConfidence := 7/10
    minProfitEstimate := 1/100
    dexes := supportedDexes
    minPriceDifferencePercent := 5/10
    maxSlippage := 5/10
    gasBuffer := 5/1000 }

/-- `DexInfo`: the output of `extractDexInfo` for one transaction. -/
structure DexInfo where
  dex : String
  tokenPair : String
  price : ℚ
deriving DecidableEq

/-- The price difference used throughout `analyze`:
`Math.abs((p1 - p2) / Math.min(p1, p2) * 100)`. -/
def arbPriceDiffPercent (p1 p2 : ℚ) : ℚ :=
  |(p1 - p2) / min p1 p2 * 100|

/-- `calculateOptimalTradeSize` (the slippage argument is accepted but
unused, as in the source): base size 10 TON, scaled by
`1 + min(gapPercent, 5)`. -/
def calculateOptimalTradeSize (buyPrice sellPrice maxSlippage : ℚ) : ℚ :=
  let priceDifferencePercent := (sellPrice - buyPrice) / buyPrice * 100
  let baseSize : ℚ := 10
  let sizeFactor := min (priceDifferencePercent / 1) 5
  baseSize * (1 + sizeFactor)

/-- `estimateGasCost`: base 0.01 TON, +0.002 if Megaton participates,
+0.003 when bridging across venues. -/
def estimateGasCost (buyDex sellDex : String) : ℚ :=
  let baseGasCost : ℚ := 1/100
  let megatonCost : ℚ := if buyDex = "Megaton" ∨ sellDex = "Megaton" then 2/1000 else 0
  let bridgeCost : ℚ := if buyDex ≠ sellDex then 3/1000 else 0
  baseGasCost + (megatonCost + bridgeCost)

/-- `calculateConfidence` for the arbitrage strategy: 70% price-difference
score (maximal at 5%), 30% profit score (maximal at 10x the minimum). -/
def arbConfidence (priceDifferencePercent estimatedProfit minProfitEstimate : ℚ) : ℚ :=
  let priceDifferenceScore := min (priceDifferencePercent / 5) 1
  let profitScore := min (estimatedProfit / (minProfitEstimate * 10)) 1
  priceDifferenceScore * (7/10) + profitScore * (3/10)

/-- The body of `analyze`'s inner `for (const otherDex of ...)` loop, for
one `otherDex`, after `dexInfo` has been extracted and written to the
cache: TTL-checked cached-price lookup (a price of 0 is falsy in JS and
skipped), redundant second age check, threshold checks, and opportunity
construction.  Returns the emitted opportunity (if any) and the cache
state after the read (an expired read deletes its entry). -/
def arbCompareStep (cfg : ArbitrageConfig) (info : DexInfo) (otherDex : String)
    (cache : PriceCache String String) (now : Int) (pkt : MempoolPacket) :
    Option MEVOpportunity × PriceCache String String :=
  if otherDex = info.dex then (none, cache)
  else
    match getPriceFromCache cache otherDex info.tokenPair now with
    | (none, c1) => (none, c1)
    | (some otherPrice, c1) =>
      if otherPrice = 0 then (none, c1)
      else
        -- `this.priceCache[otherDex][pair].timestamp`: present whenever the
        -- read returned a price (the read deletes only expired entries).
        match assocFind (venueAt c1 otherDex) info.tokenPair with
        | none => (none, c1)
        | some entry =>
          if now - entry.timestamp > 60000 then (none, c1)
          else
            let priceDifferencePercent := arbPriceDiffPercent info.price otherPrice
            if priceDifferencePercent < cfg.minPriceDifferencePercent then (none, c1)
            else
              let buyDex := if info.price < otherPrice then info.dex else otherDex
              let sellDex := if info.price < otherPrice then otherDex else info.dex
              let buyPrice := if info.price < otherPrice then info.price else otherPrice
              let sellPrice := if info.price < otherPrice then otherPrice else info.price
              let optimalTradeSize := calculateOptimalTradeSize buyPrice sellPrice cfg.maxSlippage
              let buyAmount := optimalTradeSize
              let sellAmount := optimalTradeSize * (sellPrice / buyPrice) * (1 - cfg.maxSlippage / 100)
              let estimatedGas := estimateGasCost buyDex sellDex
              let estimatedProfit := sellAmount - buyAmount - estimatedGas - cfg.gasBuffer
              if estimatedProfit < cfg.minProfitEstimate then (none, c1)
              else
                let confidence := arbConfidence priceDifferencePercent estimatedProfit cfg.minProfitEstimate
                if confidence < cfg.minConfidence then (none, c1)
                else
                  (some { strategy := "arbitrage"
                          timestamp := pkt.timestamp
                          profitEstimate := estimatedProfit
                          confidence := confidence
                          details := .arb buyDex sellDex info.tokenPair
                            priceDifferencePercent buyAmount sellAmount estimatedProfit estimatedGas
                          rawPacketId := pkt.id
                          rawTimestamp := pkt.timestamp }, c1)

/-- `extractTransactions` (identical bodies in both strategies): the
pre-extracted list, else the payload's `transactions` list, else its
`messages` list, else the payload as an array, else no transactions. -/
def extractTransactions (pkt : MempoolPacket) : List TxData :=
  match pkt.transactions with
  | some l => l
  | none =>
    match pkt.data with
    | none => []
    | some d =>
      match d.transactions with
      | some l => l
      | none =>
        match d.messages with
        | some l => l
        | none =>
          match d.asList with
          | some l => l
          | none => []

/-- Per-transaction body of `ArbitrageStrategy.analyze`: skip
non-DEX transactions, extract `DexInfo`, write it to the price cache, then
compare against every other configured venue.  The venue classifier and
`extractDexInfo` are passed in as oracle parameters `isDexTx` /
`extractInfo`: they stand for the source's `isDexTransaction` and
`extractDexInfo`, whose hex-scanning internals no claim exercises — every
theorem below quantifies over them or over their output. -/
def arbProcessTx (cfg : ArbitrageConfig) (isDexTx : TxData → Bool)
    (extractInfo : TxData → Option DexInfo) (pkt : MempoolPacket) (now : Int)
    (st : List MEVOpportunity × PriceCache String String) (tx : TxData) :
    List MEVOpportunity × PriceCache String String :=
  if ¬ isDexTx tx then st
  else
    match extractInfo tx with
    | none => st
    | some info =>
      let c1 := updatePriceCache st.2 info.dex info.tokenPair info.price now
      cfg.dexes.foldl
        (fun acc otherDex =>
          match arbCompareStep cfg info otherDex acc.2 now pkt with
          | (some opp, c2) => (acc.1 ++ [opp], c2)
          | (none, c2) => (acc.1, c2))
        (st.1, c1)

/-- `ArbitrageStrategy.analyze`: the disabled check, transaction
extraction, and the per-transaction loop.  Returns the emitted
opportunities and the final price cache. -/
def arbAnalyze (cfg : ArbitrageConfig) (isDexTx : TxData → Bool)
    (extractInfo : TxData → Option DexInfo) (pkt : MempoolPacket)
    (cache : PriceCache String String) (now : Int) :
    List MEVOpportunity × PriceCache String String :=
  if ¬ cfg.enabled then ([], cache)
  else (extractTransactions pkt).foldl (arbProcessTx cfg isDexTx extractInfo pkt now) ([], cache)

/-! ### Strategy manager (`strategy-manager.ts`) -/

/-- The descending-profit order of `sort((a, b) => b.profitEstimate -
a.profitEstimate)`. -/
def profitOrder (a b : MEVOpportunity) : Prop :=
  b.profitEstimate ≤ a.profitEstimate

instance : DecidableRel profitOrder :=
  fun a b => inferInstanceAs (Decidable (b.profitEstimate ≤ a.profitEstimate))

instance : IsTotal MEVOpportunity profitOrder :=
  ⟨fun a b => le_total b.profitEstimate a.profitEstimate⟩

instance : IsTrans MEVOpportunity profitOrder :=
  ⟨fun _ _ _ h1 h2 => le_trans h2 h1⟩

/-- The manager's stable in-place sort by descending profit
(`List.insertionSort` is stable, like the JS sort). -/
def sortByProfitDesc (l : List MEVOpportunity) : List MEVOpportunity :=
  List.insertionSort profitOrder l

/-- Whether an opportunity passes `getOpportunities`' strategy filter. -/
def matchesFilter (f : Option String) (o : MEVOpportunity) : Bool :=
  match f with
  | none => true
  | some s => o.strategy == s

/-- The `filteredOpportunities` stage of `StrategyManager.getOpportunities`:
apply the optional strategy filter. -/
def filteredOpportunities (store : List MEVOpportunity) (f : Option String) :
    List MEVOpportunity :=
  match f with
  | none => store
  | some s => store.filter fun o => o.strategy == s

/-- The list returned by `StrategyManager.getOpportunities(limit,
strategyFilter)`: filter, sort by profit descending, and truncate when a
positive limit is exceeded. -/
def getOpportunitiesResult (store : List MEVOpportunity) (limit : Nat)
    (f : Option String) : List MEVOpportunity :=
  if limit > 0 ∧ (sortByProfitDesc (filteredOpportunities store f)).length > limit
  then (sortByProfitDesc (filteredOpportunities store f)).take limit
  else sortByProfitDesc (filteredOpportunities store f)

/-- Observable outcome of one `StrategyManager.analyzePacket` call:
returned list, opportunity store afterwards, whether an
`opportunitiesUpdated` event fired, and which strategies had `analyze`
invoked. -/
structure AnalyzeCallResult where
  result : List MEVOpportunity
  store : List MEVOpportunity
  emitted : Bool
  invoked : List String
deriving DecidableEq

/-- One `StrategyManager.analyzePacket` call.  Each registered strategy is
represented by its name and the outcome of its `analyze` on this packet
(`Except.error` for a thrown exception, which the manager's `try`/`catch`
turns into zero opportunities).  With no `packet.data` the manager returns
early without touching any strategy; otherwise every strategy runs (the
source never consults `isEnabled`), results are pushed to the store, and
an event fires when anything was found — the event handler calls
`getOpportunities(20)`, whose in-place sort reorders the store. -/
def managerAnalyzePacket (registry : List (String × Except Unit (List MEVOpportunity)))
    (pkt : MempoolPacket) (store : List MEVOpportunity) : AnalyzeCallResult :=
  match pkt.data with
  | none => ⟨[], store, false, []⟩
  | some _ =>
    let newOpportunities :=
      (registry.map fun nr =>
        match nr.2 with
        | .ok l => l
        | .error _ => []).flatten
    let store1 := store ++ newOpportunities
    if newOpportunities = [] then ⟨[], store1, false, registry.map Prod.fst⟩
    else ⟨newOpportunities, sortByProfitDesc store1, true, registry.map Prod.fst⟩

/-! ### Manager state machine (store / per-strategy histories)

Abstracts sequences of `analyzePacket`, `StrategyManager.clearOpportunities`
and `BaseStrategy.clearOpportunities` calls.  What each strategy's
`analyze` emits for a packet enters as data (`analyze emissions`): in the
source, each strategy pushes exactly its returned opportunities onto its
own history while the manager pushes them all onto the aggregate store. -/

structure MgrState where
  store : List MEVOpportunity
  hists : List (String × List MEVOpportunity)
deriving DecidableEq

/-- The operations of claim C9: a packet analysis (with the per-strategy
emissions it produced), a global or per-strategy manager-level clear, and
a strategy-level clear. -/
inductive MgrOp where
  | analyze (emissions : List (String × List MEVOpportunity))
  | clearAll
  | clearStrategy (name : String)
  | stratClear (name : String)
deriving DecidableEq

/-- Emissions recorded for strategy `n` in an `analyze` step. -/
def emissionsFor (em : List (String × List MEVOpportunity)) (n : String) :
    List MEVOpportunity :=
  match em.find? fun p => p.1 == n with
  | some p => p.2
  | none => []

/-- One step of the manager state machine.  `analyze`: all emissions are
appended to the store (sorted in place by the event handler when non-empty)
and each strategy appends its own emissions to its history.
`clearAll` / `clearStrategy`: the manager filters its own store only — the
strategies' histories are untouched — and the event handler again sorts the
store in place.  `stratClear`: the strategy empties its own history only. -/
def stepOp (s : MgrState) : MgrOp → MgrState
  | .analyze em =>
    let newOpps := (em.map Prod.snd).flatten
    let store1 := s.store ++ newOpps
    { store := if newOpps = [] then store1 else sortByProfitDesc store1
      hists := s.hists.map fun nh => (nh.1, nh.2 ++ emissionsFor em nh.1) }
  | .clearAll => { store := sortByProfitDesc [], hists := s.hists }
  | .clearStrategy n =>
    { store := sortByProfitDesc (s.store.filter fun o => o.strategy != n)
      hists := s.hists }
  | .stratClear n =>
    { store := s.store
      hists := s.hists.map fun nh => if nh.1 = n then (nh.1, []) else nh }

/-- A sequence of manager operations, applied in order. -/
def runOps (s : MgrState) (ops : List MgrOp) : MgrState := ops.foldl stepOp s

/-- Every opportunity recorded in `em` is tagged with the name of the
strategy that emitted it (the source sets `strategy: this.getName()`). -/
def TaggedEmissions (em : List (String × List MEVOpportunity)) : Prop :=
  ∀ p ∈ em, ∀ o ∈ p.2, o.strategy = p.1

/-- Claim C9's invariant: for every registered strategy, the aggregate
store restricted to its name holds the same opportunities as the
strategy's own history (up to the event handler's in-place reordering of
the store). -/
def StoreHistSync (s : MgrState) : Prop :=
  ∀ p ∈ s.hists, List.Perm (s.store.filter fun o => o.strategy == p.1) p.2

/-! ### Claim theorems -/

/-- Packet-shape predicate for claim C1: no pre-extracted transaction
list, no recognized payload shape for the shared extractor, and the
sandwich strategy's payload scans come up empty (so its fallback arm
runs). -/
def NoExtractableTx (pkt : MempoolPacket) : Prop :=
  pkt.transactions = none ∧
  ∀ d, pkt.data = some d →
    d.transactions = none ∧ d.messages = none ∧ d.asList = none ∧
      sandwichRealExtract d.tx = none

/-- On a packet with no recognizable transaction shape the shared
extractor returns no transactions. -/
theorem extractTransactions_eq_nil (pkt : MempoolPacket) (h : NoExtractableTx pkt) :
    extractTransactions pkt = [] := by
  unfold extractTransactions
  rw [h.1]
  cases hd : pkt.data with
  | none => rfl
  | some d =>
    obtain ⟨h1, h2, h3, _⟩ := h.2 d hd
    simp only [h1, h2, h3]

/-- With no extractable transactions the arbitrage strategy emits
nothing (for any configuration, oracle behaviour, cache and clock). -/
theorem arbAnalyze_eq_nil (cfg : ArbitrageConfig) (isDexTx : TxData → Bool)
    (extractInfo : TxData → Option DexInfo) (pkt : MempoolPacket)
    (cache : PriceCache String String) (now : Int) (h : NoExtractableTx pkt) :
    (arbAnalyze cfg isDexTx extractInfo pkt cache now).1 = [] := by
  unfold arbAnalyze
  rw [extractTransactions_eq_nil pkt h]
  split <;> rfl

/-- With its payload scans empty the sandwich strategy falls back to a
simulated swap whose size is below `minTargetSwapSize + 20`, so the
estimated price impact stays below 0.2% and the 0.5% floor rejects it:
no opportunity, for any configuration and any in-range random draw. -/
theorem sandwichAnalyze_fallback_eq_nil (cfg : SandwichConfig) (pkt : MempoolPacket)
    (d : DataField) (rFall rBack rCap : ℚ) (hd : pkt.data = some d)
    (hex : sandwichRealExtract d.tx = none) (h0 : 0 ≤ rFall) (h1 : rFall < 1) :
    sandwichAnalyze cfg pkt rFall rBack rCap = [] := by
  unfold sandwichAnalyze
  rw [hd]
  simp only [extractSwapDetails, hex]
  cases hp : cfg.targetPairs.head? with
  | none => rfl
  | some tp =>
    simp only
    have hmem : tp ∈ cfg.targetPairs := List.mem_of_mem_head? hp
    rw [if_neg (by simpa using hmem)]
    have hsize : ¬ cfg.minTargetSwapSize + rFall * 20 < cfg.minTargetSwapSize := by nlinarith
    rw [if_neg hsize]
    have himpact :
        calculatePriceImpact cfg (cfg.minTargetSwapSize + rFall * 20) < 1/2 := by
      unfold calculatePriceImpact
      have he : cfg.minTargetSwapSize + rFall * 20 - cfg.minTargetSwapSize = rFall * 20 := by
        ring
      rw [he]
      have : rFall * 20 / 10 * (5/100) = rFall / 10 := by ring
      rw [this]
      calc min (1/10 + rFall / 10) 5 ≤ 1/10 + rFall / 10 := min_le_left _ _
        _ < 1/2 := by nlinarith
    rw [if_pos himpact]

/-- C1: for every packet from which no transactions can be extracted, the
Strategy Manager's `analyzePacket` returns the empty list, for every
configuration of the two registered strategies, every oracle behaviour,
cache state and random draw.  All functions involved are total, which is
the embedding of "never throws": every internal failure path has been
modelled and none escapes. -/
theorem c1_analyzePacket_empty_on_unextractable
    (cfgS : SandwichConfig) (cfgA : ArbitrageConfig) (isDexTx : TxData → Bool)
    (extractInfo : TxData → Option DexInfo) (cache : PriceCache String String)
    (now : Int) (store : List MEVOpportunity) (pkt : MempoolPacket)
    (rFall rBack rCap : ℚ) (h0 : 0 ≤ rFall) (h1 : rFall < 1)
    (h : NoExtractableTx pkt) :
    (managerAnalyzePacket
      [("arbitrage", Except.ok (arbAnalyze cfgA isDexTx extractInfo pkt cache now).1),
       ("sandwich", Except.ok (sandwichAnalyze cfgS pkt rFall rBack rCap))]
      pkt store).result = [] := by
  unfold managerAnalyzePacket
  cases hd : pkt.data with
  | none => rfl
  | some d =>
    have ha := arbAnalyze_eq_nil cfgA isDexTx extractInfo pkt cache now h
    have hs := sandwichAnalyze_fallback_eq_nil cfgS pkt d rFall rBack rCap hd
      (h.2 d hd).2.2.2 h0 h1
    simp [ha, hs]

/-- Witness for C1 at a fully concrete input: empty configs aside, a
packet whose payload carries none of the recognized shapes. -/
theorem c1_witness :
    (managerAnalyzePacket
      [("arbitrage", Except.ok (arbAnalyze defaultArbitrageConfig (fun _ => true)
          (fun _ => none) ⟨"p1", 5, some {}, none⟩ [] 0).1),
       ("sandwich", Except.ok (sandwichAnalyze defaultSandwichConfig
          ⟨"p1", 5, some {}, none⟩ 0 0 0))]
      ⟨"p1", 5, some {}, none⟩ []).result = [] :=
  c1_analyzePacket_empty_on_unextractable defaultSandwichConfig defaultArbitrageConfig
    (fun _ => true) (fun _ => none) [] 0 [] ⟨"p1", 5, some {}, none⟩ 0 0 0
    (by norm_num) (by norm_num)
    ⟨rfl, fun d hd => by cases hd; exact ⟨rfl, rfl, rfl, rfl⟩⟩

/-- C10: a packet without a `data` payload makes `analyzePacket` return
the empty list immediately: no strategy is invoked, the store is
unchanged, and no `opportunitiesUpdated` event fires. -/
theorem c10_missing_data_early_return
    (registry : List (String × Except Unit (List MEVOpportunity)))
    (pkt : MempoolPacket) (store : List MEVOpportunity)
    (h : pkt.data = none) :
    managerAnalyzePacket registry pkt store = ⟨[], store, false, []⟩ := by
  unfold managerAnalyzePacket
  rw [h]

/-- Witness for C10 at a concrete input. -/
theorem c10_witness :
    managerAnalyzePacket [("arbitrage", Except.ok [])] ⟨"w10", 3, none, none⟩
      [] = ⟨[], [], false, []⟩ :=
  c10_missing_data_early_return _ _ _ rfl

/-- C5: when one of two registered strategies throws from `analyze`, the
manager still returns exactly the healthy strategy's opportunities — in
either registration order — and the throwing strategy contributes none. -/
theorem c5_strategy_failure_isolation
    (pkt : MempoolPacket) (d : DataField) (store : List MEVOpportunity)
    (n1 n2 : String) (l : List MEVOpportunity) (hd : pkt.data = some d) :
    (managerAnalyzePacket [(n1, Except.error ()), (n2, Except.ok l)] pkt store).result = l ∧
    (managerAnalyzePacket [(n2, Except.ok l), (n1, Except.error ())] pkt store).result = l := by
  unfold managerAnalyzePacket
  rw [hd]
  by_cases hl : l = [] <;> simp [hl]

/-- A concrete healthy-strategy opportunity for the C5 witness. -/
def c5Opp : MEVOpportunity :=
  { strategy := "healthy", timestamp := 0, profitEstimate := 1, confidence := 1/2
    details := .plain 0, rawPacketId := "p5", rawTimestamp := 0 }

/-- Witness for C5 at a concrete input. -/
theorem c5_witness :
    (managerAnalyzePacket [("bad", Except.error ()), ("healthy", Except.ok [c5Opp])]
      ⟨"p5", 0, some {}, none⟩ []).result = [c5Opp] :=
  (c5_strategy_failure_isolation ⟨"p5", 0, some {}, none⟩ {} [] "bad" "healthy"
    [c5Opp] rfl).1

/-- C4: `getOpportunities(N, filter)` with `N > 0` returns at most `N`
opportunities, all passing the strategy filter, sorted by
`profitEstimate` descending. -/
theorem c4_getOpportunities_spec
    (store : List MEVOpportunity) (limit : Nat) (f : Option String)
    (hpos : 0 < limit) :
    (getOpportunitiesResult store limit f).length ≤ limit ∧
    (∀ o ∈ getOpportunitiesResult store limit f, matchesFilter f o = true) ∧
    (getOpportunitiesResult store limit f).Sorted profitOrder := by
  have hmem : ∀ o ∈ sortByProfitDesc (filteredOpportunities store f),
      matchesFilter f o = true := by
    intro o ho
    rw [sortByProfitDesc, List.mem_insertionSort] at ho
    cases f with
    | none => rfl
    | some s => exact (List.mem_filter.mp ho).2
  have hsort : (sortByProfitDesc (filteredOpportunities store f)).Sorted profitOrder :=
    List.sorted_insertionSort profitOrder _
  unfold getOpportunitiesResult
  split
  · next hc =>
    refine ⟨?_, ?_, ?_⟩
    · rw [List.length_take]
      exact min_le_left _ _
    · intro o ho
      exact hmem o (List.mem_of_mem_take ho)
    · exact hsort.sublist (List.take_sublist _ _)
  · next hc =>
    refine ⟨?_, hmem, hsort⟩
    rcases not_and_or.mp hc with h | h
    · exact absurd hpos h
    · exact Nat.le_of_not_lt h

/-- Witness for C4 at a concrete input. -/
theorem c4_witness :
    (getOpportunitiesResult [c5Opp] 1 none).length ≤ 1 ∧
    (∀ o ∈ getOpportunitiesResult [c5Opp] 1 none, matchesFilter none o = true) ∧
    (getOpportunitiesResult [c5Opp] 1 none).Sorted profitOrder :=
  c4_getOpportunities_spec [c5Opp] 1 none (by norm_num)

/-- Unfolded closed form of `calculateOptimalTradeSize`. -/
theorem calculateOptimalTradeSize_eq (buyPrice sellPrice maxSlippage : ℚ) :
    calculateOptimalTradeSize buyPrice sellPrice maxSlippage =
      10 * (1 + min ((sellPrice - buyPrice) / buyPrice * 100) 5) := by
  simp [calculateOptimalTradeSize]

/-- C8 counterexample: at buy price 1 and sell price 2 the computed trade
size is 60, six times the base unit size of 10 — it exceeds the claimed
bound of 5 times the base size. -/
theorem c8_counterexample :
    calculateOptimalTradeSize 1 2 (1/2) = 60 ∧
    ¬ calculateOptimalTradeSize 1 2 (1/2) ≤ 50 := by
  rw [calculateOptimalTradeSize_eq]
  norm_num

/-- C8 (amended): the optimal trade size is monotonically non-decreasing
in the price gap, and never exceeds 6 times the base unit size of 10
(the 5x cap applies to the size factor added on top of the base, giving
`10 * (1 + 5) = 60`). -/
theorem c8_trade_size_monotone_bounded (buyPrice g1 g2 maxSlippage : ℚ)
    (hb : 0 < buyPrice) (hg0 : 0 ≤ g1) (hg : g1 ≤ g2) :
    calculateOptimalTradeSize buyPrice (buyPrice + g1) maxSlippage ≤
      calculateOptimalTradeSize buyPrice (buyPrice + g2) maxSlippage ∧
    ∀ sellPrice, calculateOptimalTradeSize buyPrice sellPrice maxSlippage ≤ 60 := by
  constructor
  · rw [calculateOptimalTradeSize_eq, calculateOptimalTradeSize_eq]
    have e1 : buyPrice + g1 - buyPrice = g1 := by ring
    have e2 : buyPrice + g2 - buyPrice = g2 := by ring
    rw [e1, e2]
    have hmin : min (g1 / buyPrice * 100) 5 ≤ min (g2 / buyPrice * 100) 5 := by
      refine min_le_min ?_ le_rfl
      gcongr
    linarith
  · intro sellPrice
    rw [calculateOptimalTradeSize_eq]
    have h5 : min ((sellPrice - buyPrice) / buyPrice * 100) 5 ≤ 5 := min_le_right _ _
    linarith

/-- Witness for the amended C8 at a concrete input. -/
theorem c8_witness :
    calculateOptimalTradeSize 1 (1 + 0) (1/2) ≤ calculateOptimalTradeSize 1 (1 + 1) (1/2) ∧
    calculateOptimalTradeSize 1 2 (1/2) ≤ 60 :=
  ⟨(c8_trade_size_monotone_bounded 1 0 1 (1/2) (by norm_num) le_rfl (by norm_num)).1,
   (c8_trade_size_monotone_bounded 1 0 1 (1/2) (by norm_num) le_rfl (by norm_num)).2 2⟩

/-- The price-impact formula exactly as claim C7 words it: base 0.1%,
plus 0.05% per size unit above the minimum, capped at 5%.  Stated from
the claim's words for comparison with the source's `calculatePriceImpact`
(which adds 0.05% per ten size units). -/
def claimedPriceImpactC7 (cfg : SandwichConfig) (s : ℚ) : ℚ :=
  min (1/10 + (5/100) * (s - cfg.minTargetSwapSize)) 5

/-- C7 counterexample: at swap size 20 under the default configuration
(minimum 10) the source computes an impact of 0.15%, not the 0.6% the
claim's formula gives — and the source therefore rejects this swap at the
0.5% floor while the claimed formula would pass it. -/
theorem c7_counterexample :
    calculatePriceImpact defaultSandwichConfig 20 = 3/20 ∧
    claimedPriceImpactC7 defaultSandwichConfig 20 = 3/5 ∧
    calculatePriceImpact defaultSandwichConfig 20 ≠
      claimedPriceImpactC7 defaultSandwichConfig 20 ∧
    calculatePriceImpact defaultSandwichConfig 20 < 1/2 ∧
    ¬ claimedPriceImpactC7 defaultSandwichConfig 20 < 1/2 := by
  have h1 : calculatePriceImpact defaultSandwichConfig 20 = 3/20 := by
    norm_num [calculatePriceImpact, defaultSandwichConfig, min_def]
  have h2 : claimedPriceImpactC7 defaultSandwichConfig 20 = 3/5 := by
    norm_num [claimedPriceImpactC7, defaultSandwichConfig, min_def]
  refine ⟨h1, h2, ?_, ?_, ?_⟩ <;> simp only [h1, h2] <;> norm_num

/-- C7 (amended): for every extracted swap size `s` at or above
`minTargetSwapSize` the estimated price impact equals
`min(0.1 + 0.05 * ((s - minTargetSwapSize) / 10), 5)` — 0.05% per ten
size units above the minimum — and the candidate is rejected whenever
this impact is below the 0.5% floor. -/
theorem c7_price_impact_and_rejection (cfg : SandwichConfig) (pkt : MempoolPacket)
    (d : DataField) (tp : String) (s : ℚ) (rFall rBack rCap : ℚ)
    (hd : pkt.data = some d)
    (hex : sandwichRealExtract d.tx = some ⟨some tp, s⟩)
    (hs : cfg.minTargetSwapSize ≤ s) :
    calculatePriceImpact cfg s =
      min (1/10 + (5/100) * ((s - cfg.minTargetSwapSize) / 10)) 5 ∧
    (calculatePriceImpact cfg s < 1/2 → sandwichAnalyze cfg pkt rFall rBack rCap = []) := by
  constructor
  · unfold calculatePriceImpact
    have : (s - cfg.minTargetSwapSize) / 10 * (5/100) =
        (5/100) * ((s - cfg.minTargetSwapSize) / 10) := by ring
    rw [this]
  · intro himp
    unfold sandwichAnalyze
    rw [hd]
    simp only [extractSwapDetails, hex]
    by_cases hmem : tp ∈ cfg.targetPairs
    · rw [if_neg (by simpa using hmem)]
      rw [if_neg (not_lt.mpr hs)]
      rw [if_pos himp]
    · rw [if_pos (by simpa using hmem)]

/-- The concrete C7 witness packet: a DeDust swap message whose amount
field decodes to 20 TON. -/
def c7Packet : MempoolPacket :=
  { id := "pkt-c7", timestamp := 0
    data := some { tx := { outMsgs :=
      [dedustSwapOpCode ++ [0, 0, 0, 0, 0, 0, 0, 4, 10, 8, 1, 7, 12, 8, 0, 0]] } } }

/-- Witness for the amended C7: swap size 20 under the default
configuration has impact 0.15% < 0.5% and is rejected. -/
theorem c7_witness :
    calculatePriceImpact defaultSandwichConfig 20 =
      min (1/10 + (5/100) * ((20 - defaultSandwichConfig.minTargetSwapSize) / 10)) 5 ∧
    sandwichAnalyze defaultSandwichConfig c7Packet 0 0 0 = [] := by
  have h := c7_price_impact_and_rejection defaultSandwichConfig c7Packet
    { tx := { outMsgs :=
        [dedustSwapOpCode ++ [0, 0, 0, 0, 0, 0, 0, 4, 10, 8, 1, 7, 12, 8, 0, 0]] } }
    "TON/USDT" 20 0 0 0 rfl
    (by norm_num [sandwichRealExtract, extractAmountFromOutMsg, hexFindIdx,
      dedustSwapOpCode, hexSlice, hexParse, List.isPrefixOf, List.findSome?])
    (by norm_num [defaultSandwichConfig])
  refine ⟨h.1, h.2 ?_⟩
  norm_num [calculatePriceImpact, defaultSandwichConfig, min_def]

/-- The concrete C6 packet: a DeDust swap message whose amount field
decodes to 110 TON. -/
def c6Packet : MempoolPacket :=
  { id := "pkt-c6", timestamp := 0
    data := some { tx := { outMsgs :=
      [dedustSwapOpCode ++ [0, 0, 0, 0, 0, 0, 1, 9, 9, 12, 8, 2, 12, 12, 0, 0]] } } }

/-- The default sandwich configuration with `enabled := false`. -/
def c6Config : SandwichConfig := { defaultSandwichConfig with enabled := false }

/-- The opportunity the disabled sandwich strategy emits on `c6Packet`
(random draws 1/2): swap size 110 TON, impact 0.6%, profit 0.40484 TON,
confidence 0.962. -/
def c6Opp : MEVOpportunity :=
  { strategy := "sandwich", timestamp := 0
    profitEstimate := 10121/25000, confidence := 481/500
    details := .sandwichDetails "unknown" "TON/USDT" 110 (3/5) (429/25) (2541/100)
      (679/25000) (3/100) (1429/25000)
    rawPacketId := "pkt-c6", rawTimestamp := 0 }

/-- C6 code bug, exhibited: `SandwichStrategy.analyze` never consults
`enabled` (unlike the arbitrage strategy), and `analyzePacket` fans out to
every registered strategy without an `isEnabled` check — so a strategy
disabled in its configuration still contributes opportunities to the
result and the aggregate store. -/
theorem c6_disabled_sandwich_still_contributes :
    c6Config.enabled = false ∧
    sandwichAnalyze c6Config c6Packet 0 (1/2) (1/2) = [c6Opp] ∧
    c6Opp.strategy = "sandwich" ∧
    (managerAnalyzePacket
      [("arbitrage", Except.ok (arbAnalyze defaultArbitrageConfig
          (fun _ => false) (fun _ => none) c6Packet [] 0).1),
       ("sandwich", Except.ok (sandwichAnalyze c6Config c6Packet 0 (1/2) (1/2)))]
      c6Packet []).result = [c6Opp] := by
  have hs : sandwichAnalyze c6Config c6Packet 0 (1/2) (1/2) = [c6Opp] := by
    norm_num [sandwichAnalyze, c6Config, c6Packet, c6Opp, defaultSandwichConfig,
      extractSwapDetails, sandwichRealExtract, extractAmountFromOutMsg, hexFindIdx,
      dedustSwapOpCode, hexSlice, hexParse, List.isPrefixOf, List.findSome?,
      calculatePriceImpact, calculateOptimalFrontRunAmount, calculateOptimalBackRunAmount,
      calculateProfitEstimate, sandwichConfidence, min_def]
  have ha : (arbAnalyze defaultArbitrageConfig
      (fun _ => false) (fun _ => none) c6Packet [] 0).1 = [] := by
    norm_num [arbAnalyze, extractTransactions, c6Packet, defaultArbitrageConfig]
  refine ⟨rfl, hs, rfl, ?_⟩
  rw [hs, ha]
  simp [managerAnalyzePacket, c6Packet, c6Opp]

/-- A skip branch of the comparison loop cannot have produced the emitted
opportunity. -/
theorem skipBranchFst {α β : Type} {c : Prop} [Decidable c] {thenC : β}
    {B : Option α × β} {o : α}
    (h : (if c then ((none : Option α), thenC) else B).1 = some o) : B.1 = some o := by
  by_cases hc : c
  · rw [if_pos hc] at h
    simp at h
  · rw [if_neg hc] at h
    exact h

/-- The price-difference computation agrees with the spec's closed form
whenever both prices are positive. -/
theorem arbPriceDiffPercent_eq (p1 p2 : ℚ) (h1 : 0 < p1) (h2 : 0 < p2) :
    arbPriceDiffPercent p1 p2 = |p1 - p2| / min p1 p2 * 100 := by
  unfold arbPriceDiffPercent
  rw [abs_mul, abs_div, abs_of_pos (lt_min h1 h2), abs_of_pos (by norm_num : (0:ℚ) < 100)]

/-- A cached price whose difference from the observed price falls below
`minPriceDifferencePercent` yields no opportunity. -/
theorem arbCompareStep_skip_below_threshold (cfg : ArbitrageConfig) (info : DexInfo)
    (otherDex : String) (cache : PriceCache String String) (now : Int)
    (pkt : MempoolPacket) (p2 : ℚ)
    (hread : (getPriceFromCache cache otherDex info.tokenPair now).1 = some p2)
    (hpdp : arbPriceDiffPercent info.price p2 < cfg.minPriceDifferencePercent) :
    (arbCompareStep cfg info otherDex cache now pkt).1 = none := by
  unfold arbCompareStep
  by_cases hD : otherDex = info.dex
  · rw [if_pos hD]
  · rw [if_neg hD]
    rcases hg : getPriceFromCache cache otherDex info.tokenPair now with ⟨o, c1⟩
    rw [hg] at hread
    cases o with
    | none => simp at hread
    | some p =>
      have hp : p = p2 := Option.some.inj hread
      subst hp
      dsimp only
      by_cases hp0 : p = 0
      · rw [if_pos hp0]
      · rw [if_neg hp0]
        rcases ha : assocFind (venueAt c1 otherDex) info.tokenPair with _ | e
        · rfl
        · dsimp only
          by_cases hage : now - e.timestamp > 60000
          · rw [if_pos hage]
          · rw [if_neg hage, if_pos hpdp]

/-- Every emitted opportunity records the cheaper venue as `buyDex`, the
other as `sellDex`, and the computed price-difference percentage. -/
theorem arbCompareStep_buy_sell (cfg : ArbitrageConfig) (info : DexInfo)
    (otherDex : String) (cache : PriceCache String String) (now : Int)
    (pkt : MempoolPacket) (p2 : ℚ) (opp : MEVOpportunity)
    (hread : (getPriceFromCache cache otherDex info.tokenPair now).1 = some p2)
    (hstep : (arbCompareStep cfg info otherDex cache now pkt).1 = some opp) :
    ∃ buyAmount sellAmount prof gas,
      opp.details = .arb (if info.price < p2 then info.dex else otherDex)
        (if info.price < p2 then otherDex else info.dex) info.tokenPair
        (arbPriceDiffPercent info.price p2) buyAmount sellAmount prof gas := by
  unfold arbCompareStep at hstep
  have hstep := skipBranchFst hstep
  rcases hg : getPriceFromCache cache otherDex info.tokenPair now with ⟨o, c1⟩
  rw [hg] at hread hstep
  cases o with
  | none => simp at hread
  | some p =>
    have hp : p = p2 := Option.some.inj hread
    subst hp
    dsimp only at hstep
    have hstep := skipBranchFst hstep
    rcases ha : assocFind (venueAt c1 otherDex) info.tokenPair with _ | e
    · rw [ha] at hstep
      dsimp only at hstep
      simp at hstep
    · rw [ha] at hstep
      dsimp only at hstep
      have hstep := skipBranchFst hstep
      have hstep := skipBranchFst hstep
      have hstep := skipBranchFst hstep
      have hstep := skipBranchFst hstep
      dsimp only at hstep
      have heq := Option.some.inj hstep
      subst heq
      exact ⟨_, _, _, _, rfl⟩

/-- The spec's arbitrage example: a fresh cached price of 0.51 for
`(DexB, TON/USDT)`. -/
def c2Cache : PriceCache String String := [("DexB", [("TON/USDT", ⟨51/100, 0⟩)])]

/-- The observed side of the example: `DexA` trading `TON/USDT` at 0.50. -/
def c2Info : DexInfo := ⟨"DexA", "TON/USDT", 1/2⟩

/-- Packet carrying the example's observation. -/
def c2Pkt : MempoolPacket := { id := "pkt-c2", timestamp := 0 }

/-- Defaults with `minPriceDifferencePercent := 1`, as in the spec's
example. -/
def c2CfgMinDiff1 : ArbitrageConfig :=
  { defaultArbitrageConfig with minPriceDifferencePercent := 1 }

/-- The example configuration with the confidence floor lowered to 0.5
(below the 0.58 the example computes; the default 0.7 suppresses the
emission). -/
def c2CfgLowConf : ArbitrageConfig := { c2CfgMinDiff1 with minConfidence := 1/2 }

/-- The opportunity the comparison step emits in the example (with
`minConfidence` 0.5): difference exactly 2%, buy on DexA, sell on DexB. -/
def c2Opp : MEVOpportunity :=
  { strategy := "arbitrage", timestamp := 0, profitEstimate := 429/1000
    confidence := 29/50
    details := .arb "DexA" "DexB" "TON/USDT" 2 30 (30447/1000) (429/1000) (13/1000)
    rawPacketId := "pkt-c2", rawTimestamp := 0 }

/-- The spec's example emits under the lowered confidence floor, with
`buyDex = DexA`, `sellDex = DexB` and difference exactly 2%. -/
theorem c2_example_emits :
    (arbCompareStep c2CfgLowConf c2Info "DexB" c2Cache 0 c2Pkt).1 = some c2Opp := by
  norm_num [arbCompareStep, getPriceFromCache, assocFind, venueAt, c2Cache, c2Info,
    c2Pkt, c2CfgLowConf, c2CfgMinDiff1, defaultArbitrageConfig, c2Opp,
    arbPriceDiffPercent, PRICE_CACHE_TTL, calculateOptimalTradeSize, estimateGasCost,
    arbConfidence, min_def, max_def, abs_eq_max_neg]
  simp only [String.reduceEq, if_false, iff_false, or_self, or_false, false_or, ite_false]
  norm_num [min_def, max_def]

/-- C2 (amended): the price difference is `|p1 - p2| / min(p1, p2) * 100`;
an opportunity is skipped below `minPriceDifferencePercent`; every emitted
opportunity buys on the cheaper venue and sells on the other; and in the
spec's DexA-0.50 / DexB-0.51 example the difference is exactly 2% (not the
1.96% the spec quotes) and the opportunity (buy DexA, sell DexB) is
emitted once the confidence floor admits the example's 0.58 confidence. -/
theorem c2_price_difference_formula_and_assignment :
    (∀ p1 p2 : ℚ, 0 < p1 → 0 < p2 →
       arbPriceDiffPercent p1 p2 = |p1 - p2| / min p1 p2 * 100) ∧
    (∀ (cfg : ArbitrageConfig) (info : DexInfo) (otherDex : String)
       (cache : PriceCache String String) (now : Int) (pkt : MempoolPacket) (p2 : ℚ),
       (getPriceFromCache cache otherDex info.tokenPair now).1 = some p2 →
       arbPriceDiffPercent info.price p2 < cfg.minPriceDifferencePercent →
       (arbCompareStep cfg info otherDex cache now pkt).1 = none) ∧
    (∀ (cfg : ArbitrageConfig) (info : DexInfo) (otherDex : String)
       (cache : PriceCache String String) (now : Int) (pkt : MempoolPacket)
       (p2 : ℚ) (opp : MEVOpportunity),
       (getPriceFromCache cache otherDex info.tokenPair now).1 = some p2 →
       (arbCompareStep cfg info otherDex cache now pkt).1 = some opp →
       ∃ buyAmount sellAmount prof gas,
         opp.details = .arb (if info.price < p2 then info.dex else otherDex)
           (if info.price < p2 then otherDex else info.dex) info.tokenPair
           (arbPriceDiffPercent info.price p2) buyAmount sellAmount prof gas) ∧
    (arbCompareStep c2CfgLowConf c2Info "DexB" c2Cache 0 c2Pkt).1 = some c2Opp :=
  ⟨arbPriceDiffPercent_eq, arbCompareStep_skip_below_threshold,
   arbCompareStep_buy_sell, c2_example_emits⟩

/-- Witness for the amended C2 at concrete inputs. -/
theorem c2_witness :
    arbPriceDiffPercent 1 2 = |(1:ℚ) - 2| / min 1 2 * 100 ∧
    (arbCompareStep c2CfgLowConf c2Info "DexB" c2Cache 0 c2Pkt).1 = some c2Opp :=
  ⟨c2_price_difference_formula_and_assignment.1 1 2 (by norm_num) (by norm_num),
   c2_price_difference_formula_and_assignment.2.2.2⟩

/-- C2 counterexample: at prices 0.50 / 0.51 the source computes a price
difference of exactly 2% (it divides by the minimum price), not the
spec's 1.96% (which divides by the maximum) — and under the example's
configuration with the default `minConfidence` of 0.7 no opportunity is
emitted at all, because the example's confidence works out to 0.58. -/
theorem c2_counterexample :
    arbPriceDiffPercent (1/2) (51/100) = 2 ∧
    (2 : ℚ) ≠ 1.96 ∧
    (arbCompareStep c2CfgMinDiff1 c2Info "DexB" c2Cache 0 c2Pkt).1 = none := by
  refine ⟨?_, by norm_num, ?_⟩
  · norm_num [arbPriceDiffPercent, min_def, max_def, abs_eq_max_neg]
  · norm_num [arbCompareStep, getPriceFromCache, assocFind, venueAt, c2Cache, c2Info,
      c2Pkt, c2CfgMinDiff1, defaultArbitrageConfig, arbPriceDiffPercent, PRICE_CACHE_TTL,
      calculateOptimalTradeSize, estimateGasCost, arbConfidence, min_def, max_def,
      abs_eq_max_neg]
    simp only [String.reduceEq, if_false, iff_false, or_self, or_false, false_or, ite_false]
    norm_num [min_def, max_def]

/-- All emissions carrying a name other than `n` vanish under the
`strategy == n` filter. -/
theorem filter_flatten_of_not_mem (em : List (String × List MEVOpportunity)) (n : String)
    (hT : TaggedEmissions em) (hn : ∀ p ∈ em, p.1 ≠ n) :
    ((em.map Prod.snd).flatten.filter fun o => o.strategy == n) = [] := by
  rw [List.filter_eq_nil_iff]
  intro o ho
  rw [List.mem_flatten] at ho
  obtain ⟨l, hl, hol⟩ := ho
  rw [List.mem_map] at hl
  obtain ⟨p, hp, rfl⟩ := hl
  have := hT p hp o hol
  simp [this, hn p hp]

/-- With uniquely-named, correctly-tagged emissions, filtering the flattened
emissions by a strategy name recovers exactly that strategy's emissions. -/
theorem filter_flatten_tagged (em : List (String × List MEVOpportunity)) (n : String)
    (hT : TaggedEmissions em) (hN : (em.map Prod.fst).Nodup) :
    ((em.map Prod.snd).flatten.filter fun o => o.strategy == n) = emissionsFor em n := by
  induction em with
  | nil => rfl
  | cons p t ih =>
    have hTt : TaggedEmissions t := fun q hq => hT q (List.mem_cons_of_mem p hq)
    have hNt : (t.map Prod.fst).Nodup := (List.nodup_cons.mp hN).2
    by_cases hpn : p.1 = n
    · have hfl : (p.2.filter fun o => o.strategy == n) = p.2 :=
        List.filter_eq_self.mpr fun o ho => by
          simp [hT p (List.mem_cons_self p t) o ho, hpn]
      have hrest : ((t.map Prod.snd).flatten.filter fun o => o.strategy == n) = [] := by
        refine filter_flatten_of_not_mem t n hTt fun q hq => ?_
        intro hqn
        exact (List.nodup_cons.mp hN).1 (hpn ▸ hqn ▸ List.mem_map_of_mem Prod.fst hq)
      have hfind : emissionsFor (p :: t) n = p.2 := by
        unfold emissionsFor
        rw [List.find?_cons_of_pos _ (by simp [hpn])]
      simp [List.filter_append, hfl, hrest, hfind]
    · have hfl : (p.2.filter fun o => o.strategy == n) = [] :=
        List.filter_eq_nil_iff.mpr fun o ho => by
          simp [hT p (List.mem_cons_self p t) o ho, hpn]
      have hfind : emissionsFor (p :: t) n = emissionsFor t n := by
        unfold emissionsFor
        rw [List.find?_cons_of_neg _ (by simp [hpn])]
      simp only [List.map_cons, List.flatten_cons, List.filter_append, hfl, hfind,
        List.nil_append]
      exact ih hTt hNt

/-- One `analyze` step preserves the store/history correspondence when its
emissions are tagged with their strategies' names (as the source
guarantees) and strategy names are unique (the registry is a `Map`). -/
theorem stepOp_analyze_sync (s : MgrState) (em : List (String × List MEVOpportunity))
    (hsync : StoreHistSync s) (hT : TaggedEmissions em)
    (hN : (em.map Prod.fst).Nodup) : StoreHistSync (stepOp s (.analyze em)) := by
  intro p hp
  obtain ⟨q, hq, rfl⟩ := List.mem_map.mp hp
  have hperm1 :
      List.Perm (((stepOp s (.analyze em)).store).filter fun o => o.strategy == q.1)
        ((s.store ++ (em.map Prod.snd).flatten).filter fun o => o.strategy == q.1) := by
    show List.Perm ((if (em.map Prod.snd).flatten = [] then
        s.store ++ (em.map Prod.snd).flatten
      else sortByProfitDesc (s.store ++ (em.map Prod.snd).flatten)).filter
        fun o => o.strategy == q.1) _
    split
    · exact List.Perm.refl _
    · exact (List.perm_insertionSort profitOrder _).filter _
  refine hperm1.trans ?_
  rw [List.filter_append, filter_flatten_tagged em q.1 hT hN]
  exact (hsync q hq).append (List.Perm.refl _)

/-- C9 (amended): under any sequence of `analyzePacket` steps — with no
clear operations — the aggregate store restricted to a strategy's name
stays a permutation of that strategy's own history (permutation rather
than equality because the `opportunitiesUpdated` handler re-sorts the
store in place).  Manager-level and strategy-level clears each empty only
their own side and break the correspondence (see the counterexample). -/
theorem c9_store_hist_sync_under_analyze (ops : List MgrOp) (s : MgrState)
    (hsync : StoreHistSync s)
    (hops : ∀ op ∈ ops, ∃ em, op = MgrOp.analyze em ∧ TaggedEmissions em ∧
      (em.map Prod.fst).Nodup) :
    StoreHistSync (runOps s ops) := by
  induction ops generalizing s with
  | nil => exact hsync
  | cons op t ih =>
    obtain ⟨em, rfl, hT, hN⟩ := hops op (List.mem_cons_self op t)
    exact ih (stepOp s (.analyze em)) (stepOp_analyze_sync s em hsync hT hN)
      fun o ho => hops o (List.mem_cons_of_mem _ ho)

/-- A concrete strategy-"a" opportunity for the C9 scenarios. -/
def c9OppA : MEVOpportunity :=
  { strategy := "a", timestamp := 0, profitEstimate := 1, confidence := 1/2
    details := .plain 9, rawPacketId := "p9", rawTimestamp := 0 }

/-- Two registered strategies "a" and "b" with empty store and histories. -/
def c9State0 : MgrState := { store := [], hists := [("a", []), ("b", [])] }

/-- One packet analysis in which strategy "a" emitted `c9OppA` and "b"
emitted nothing. -/
def c9Em : List (String × List MEVOpportunity) := [("a", [c9OppA]), ("b", [])]

/-- Witness for the amended C9 at a concrete input: after one analysis the
store restricted to "a" holds exactly "a"'s history. -/
theorem c9_witness :
    List.Perm ((runOps c9State0 [MgrOp.analyze c9Em]).store.filter
      fun o => o.strategy == "a") [c9OppA] := by
  have h := c9_store_hist_sync_under_analyze [MgrOp.analyze c9Em] c9State0
    (by intro p hp
        simp only [c9State0, List.mem_cons, List.not_mem_nil, or_false] at hp
        rcases hp with rfl | rfl <;> exact List.Perm.refl _)
    (by intro op hop
        simp only [List.mem_cons, List.not_mem_nil, or_false] at hop
        subst hop
        refine ⟨c9Em, rfl, ?_, by simp [c9Em]⟩
        intro p hp o ho
        simp only [c9Em, List.mem_cons, List.not_mem_nil, or_false] at hp
        rcases hp with rfl | rfl <;> simp_all [c9OppA])
  have hmem : ("a", [] ++ emissionsFor c9Em "a") ∈ (runOps c9State0 [MgrOp.analyze c9Em]).hists := by
    simp [runOps, stepOp, c9State0]
  have := h _ hmem
  simpa [emissionsFor, c9Em] using this

/-- C9 counterexample: after strategy "a" emits one opportunity and the
manager-level `clearOpportunities("a")` runs, the aggregate store
restricted to "a" is empty while "a"'s own history still holds the
opportunity — the two sides have diverged. -/
theorem c9_counterexample :
    ((runOps c9State0 [MgrOp.analyze c9Em, MgrOp.clearStrategy "a"]).store.filter
      fun o => o.strategy == "a") = [] ∧
    ("a", [c9OppA]) ∈ (runOps c9State0 [MgrOp.analyze c9Em, MgrOp.clearStrategy "a"]).hists ∧
    ¬ List.Perm ([] : List MEVOpportunity) [c9OppA] := by
  refine ⟨?_, ?_, by simp⟩
  · simp [runOps, stepOp, c9State0, c9Em, emissionsFor, sortByProfitDesc, c9OppA]
  · simp [runOps, stepOp, c9State0, c9Em, emissionsFor, sortByProfitDesc, c9OppA]

/-! ### Price-cache lemmas for claim C3 -/

section PriceCacheLemmas

variable {α β : Type} [DecidableEq α]

/-- Reading back the key just written. -/
theorem assocFind_set_self (l : List (α × β)) (a : α) (v : β) :
    assocFind (assocSet l a v) a = some v := by
  induction l with
  | nil => simp [assocSet, assocFind]
  | cons p t ih =>
    by_cases h : p.1 = a
    · simp [assocSet, assocFind, h]
    · cases p
      simp only [assocSet, if_neg h]
      simpa [assocFind, h] using ih

/-- Writing one key leaves every other key's binding unchanged. -/
theorem assocFind_set_ne (l : List (α × β)) (a x : α) (v : β) (h : x ≠ a) :
    assocFind (assocSet l a v) x = assocFind l x := by
  induction l with
  | nil => simp [assocSet, assocFind, Ne.symm h]
  | cons p t ih =>
    cases p with
    | mk b c =>
      by_cases hp : b = a
      · subst hp
        simp [assocSet, assocFind, Ne.symm h]
      · simp [assocSet, if_neg hp, assocFind, ih]

/-- Key membership after a property write. -/
theorem mem_assocKeys_set (l : List (α × β)) (a x : α) (v : β) :
    x ∈ assocKeys (assocSet l a v) ↔ x = a ∨ x ∈ assocKeys l := by
  induction l with
  | nil => simp [assocSet, assocKeys]
  | cons p t ih =>
    cases p with
    | mk b c =>
      by_cases hp : b = a
      · subst hp
        simp only [assocSet, if_pos rfl, if_true, eq_self_iff_true, ite_true,
          assocKeys, List.map_cons, List.mem_cons]
        tauto
      · simp only [assocSet, if_neg hp, assocKeys, List.map_cons, List.mem_cons]
        simp only [assocKeys] at ih
        rw [ih]
        tauto

/-- A property write preserves key uniqueness. -/
theorem assocKeys_nodup_set (l : List (α × β)) (a : α) (v : β)
    (h : (assocKeys l).Nodup) : (assocKeys (assocSet l a v)).Nodup := by
  induction l with
  | nil => simp [assocSet, assocKeys]
  | cons p t ih =>
    cases p with
    | mk b c =>
      simp only [assocKeys, List.map_cons, List.nodup_cons] at h
      by_cases hp : b = a
      · subst hp
        simp only [assocSet, if_pos rfl, if_true, eq_self_iff_true, ite_true,
          assocKeys, List.map_cons, List.nodup_cons]
        exact h
      · simp only [assocSet, if_neg hp, assocKeys, List.map_cons, List.nodup_cons]
        refine ⟨fun hb => ?_, ih h.2⟩
        rcases (mem_assocKeys_set t a b v).mp (by simpa [assocKeys] using hb) with rfl | hm
        · exact hp rfl
        · exact h.1 (by simpa [assocKeys] using hm)

/-- A property write grows the object by at most one key. -/
theorem length_assocSet_le (l : List (α × β)) (a : α) (v : β) :
    (assocSet l a v).length ≤ l.length + 1 := by
  induction l with
  | nil => simp [assocSet]
  | cons p t ih =>
    cases p
    simp only [assocSet]
    split
    · simp
    · simpa using Nat.succ_le_succ ih

/-- With unique keys, a successful lookup is exactly membership. -/
theorem assocFind_eq_some_iff_mem (l : List (α × β)) (a : α) (b : β)
    (h : (assocKeys l).Nodup) : assocFind l a = some b ↔ (a, b) ∈ l := by
  induction l with
  | nil => simp [assocFind]
  | cons p t ih =>
    cases p with
    | mk x y =>
      simp only [assocKeys, List.map_cons, List.nodup_cons] at h
      by_cases hx : x = a
      · subst hx
        simp only [assocFind, if_pos rfl, if_true, eq_self_iff_true, ite_true,
          Option.some.injEq, List.mem_cons]
        constructor
        · rintro rfl
          exact Or.inl rfl
        · rintro (he | hm)
          · exact (Prod.mk.injEq _ _ _ _ ▸ he : _ ∧ _).2.symm
          · exact absurd (List.mem_map_of_mem Prod.fst hm) (by simpa [assocKeys] using h.1)
      · simp only [assocFind, if_neg hx, List.mem_cons]
        rw [ih (by simpa [assocKeys] using h.2)]
        constructor
        · exact Or.inr
        · rintro (he | hm)
          · exact absurd ((Prod.mk.injEq _ _ _ _ ▸ he : _ ∧ _)).1.symm hx
          · exact hm

/-- Lookup misses when no pair carries the key. -/
theorem assocFind_eq_none (l : List (α × β)) (a : α)
    (h : ∀ p ∈ l, p.1 ≠ a) : assocFind l a = none := by
  induction l with
  | nil => rfl
  | cons p t ih =>
    cases p with
    | mk x y =>
      simp only [assocFind, if_neg (h (x, y) (List.mem_cons_self _ _))]
      exact ih fun q hq => h q (List.mem_cons_of_mem _ hq)

/-- Writing a fresh key appends it, preserving enumeration order. -/
theorem assocSet_of_not_mem (l : List (α × β)) (a : α) (v : β)
    (h : a ∉ assocKeys l) : assocSet l a v = l ++ [(a, v)] := by
  induction l with
  | nil => rfl
  | cons p t ih =>
    cases p with
    | mk x y =>
      simp only [assocKeys, List.map_cons, List.mem_cons] at h
      push_neg at h
      simp only [assocSet, if_neg (fun he : x = a => h.1 he.symm), List.cons_append,
        List.cons.injEq, true_and]
      exact ih (by simpa [assocKeys] using h.2)

end PriceCacheLemmas

section CleanupLemmas

variable {κ : Type} [DecidableEq κ]

/-- The cleanup only ever deletes entries. -/
theorem cleanupVenue_sublist (vm : VenueMap κ) (now : Int) :
    List.Sublist (cleanupVenue vm now) vm := by
  unfold cleanupVenue
  dsimp only
  split
  · exact (List.filter_sublist _).trans (List.filter_sublist _)
  · exact List.filter_sublist _

/-- The cleanup cannot grow a venue map. -/
theorem cleanupVenue_length_le (vm : VenueMap κ) (now : Int) :
    (cleanupVenue vm now).length ≤ vm.length :=
  (cleanupVenue_sublist vm now).length_le

/-- The cleanup preserves key uniqueness. -/
theorem cleanupVenue_nodup (vm : VenueMap κ) (now : Int)
    (h : (assocKeys vm).Nodup) : (assocKeys (cleanupVenue vm now)).Nodup :=
  h.sublist ((cleanupVenue_sublist vm now).map Prod.fst)

/-- A fresh entry of an under-capacity venue map survives the cleanup. -/
theorem assocFind_cleanupVenue_of_fresh (vm : VenueMap κ) (now : Int) (k : κ)
    (e : PriceEntry) (hN : (assocKeys vm).Nodup)
    (hfind : assocFind vm k = some e)
    (hfresh : now - e.timestamp ≤ PRICE_CACHE_TTL)
    (hlen : vm.length ≤ MAX_CACHE_SIZE) :
    assocFind (cleanupVenue vm now) k = some e := by
  have hmem : (k, e) ∈ vm := (assocFind_eq_some_iff_mem vm k e hN).mp hfind
  unfold cleanupVenue
  dsimp only
  have hmem1 : (k, e) ∈ vm.filter fun en => decide (now - en.2.timestamp ≤ PRICE_CACHE_TTL) :=
    List.mem_filter.mpr ⟨hmem, by simpa using hfresh⟩
  have hlen1 : (vm.filter fun en => decide (now - en.2.timestamp ≤ PRICE_CACHE_TTL)).length ≤
      MAX_CACHE_SIZE := le_trans (List.length_filter_le _ _) hlen
  rw [if_neg (by omega)]
  exact (assocFind_eq_some_iff_mem _ k e
    (hN.sublist ((List.filter_sublist _).map Prod.fst))).mpr hmem1

/-- The cleanup never changes a surviving binding: a lookup after cleanup
either agrees with the lookup before it or misses. -/
theorem assocFind_cleanupVenue_weak (vm : VenueMap κ) (now : Int) (k : κ)
    (hN : (assocKeys vm).Nodup) :
    assocFind (cleanupVenue vm now) k = assocFind vm k ∨
      assocFind (cleanupVenue vm now) k = none := by
  rcases hf : assocFind (cleanupVenue vm now) k with _ | e
  · exact Or.inr rfl
  · left
    have hmem : (k, e) ∈ cleanupVenue vm now :=
      (assocFind_eq_some_iff_mem _ k e (cleanupVenue_nodup vm now hN)).mp hf
    have : (k, e) ∈ vm := (cleanupVenue_sublist vm now).mem hmem
    rw [(assocFind_eq_some_iff_mem vm k e hN).mpr this]

end CleanupLemmas

section CacheTopLevel

variable {δ κ : Type} [DecidableEq δ] [DecidableEq κ]

/-- Looking a venue up through the global cleanup. -/
theorem assocFind_cleanupPriceCache (c : PriceCache δ κ) (now : Int) (d : δ) :
    assocFind (cleanupPriceCache c now) d =
      (assocFind c d).map fun vm => cleanupVenue vm now := by
  induction c with
  | nil => rfl
  | cons p t ih =>
    cases p with
    | mk x vm =>
      by_cases hx : x = d
      · subst hx
        simp [cleanupPriceCache, assocFind]
      · simpa [cleanupPriceCache, assocFind, hx] using ih

/-- The empty venue map is a fixed point of the cleanup. -/
theorem cleanupVenue_nil (now : Int) : cleanupVenue ([] : VenueMap κ) now = [] := rfl

/-- How one write changes the venue map stored for an arbitrary venue
`d`: the written venue gets the new binding inserted, every venue then
passes through the cleanup. -/
theorem venueAt_updatePriceCache (c : PriceCache δ κ) (d2 d : δ) (k2 : κ) (p2 : ℚ)
    (t2 : Int) :
    venueAt (updatePriceCache c d2 k2 p2 t2) d =
      cleanupVenue (if d2 = d then assocSet (venueAt c d2) k2 ⟨p2, t2⟩ else venueAt c d) t2 := by
  unfold updatePriceCache venueAt
  dsimp only
  rw [assocFind_cleanupPriceCache]
  by_cases hd : d2 = d
  · subst hd
    rw [assocFind_set_self]
    simp
  · rw [assocFind_set_ne _ _ _ _ fun he => hd he.symm, if_neg hd]
    cases assocFind c d with
    | none => simp [cleanupVenue_nil]
    | some vm => simp

/-- The value returned by a cache read, phrased through `venueAt`. -/
theorem getPriceFromCache_fst (c : PriceCache δ κ) (d : δ) (k : κ) (now : Int) :
    (getPriceFromCache c d k now).1 =
      match assocFind (venueAt c d) k with
      | none => none
      | some e => if now - e.timestamp > PRICE_CACHE_TTL then none else some e.price := by
  unfold getPriceFromCache venueAt
  cases hv : assocFind c d with
  | none => simp [assocFind]
  | some vm =>
    simp only [Option.getD_some]
    cases hk : assocFind vm k with
    | none => rfl
    | some e =>
      dsimp only
      split <;> rfl

end CacheTopLevel

section CachePreservation

variable {δ κ : Type} [DecidableEq δ] [DecidableEq κ]

/-- Effect of a single write on another key's binding, packaged: the
binding survives with its entry intact, keys stay unique, and the venue
grows by at most the one inserted binding. -/
theorem updatePriceCache_preserves (c : PriceCache δ κ) (d1 : δ) (k1 : κ) (p1 : ℚ)
    (t1 : Int) (d : δ) (k : κ) (e0 : PriceEntry)
    (hN : (assocKeys (venueAt c d)).Nodup)
    (hfind : assocFind (venueAt c d) k = some e0)
    (hne : ¬(d1 = d ∧ k1 = k))
    (hfresh1 : t1 - e0.timestamp ≤ PRICE_CACHE_TTL)
    (hcap : (venueAt c d).length + (if d1 = d then 1 else 0) ≤ MAX_CACHE_SIZE) :
    assocFind (venueAt (updatePriceCache c d1 k1 p1 t1) d) k = some e0 ∧
      (assocKeys (venueAt (updatePriceCache c d1 k1 p1 t1) d)).Nodup ∧
      (venueAt (updatePriceCache c d1 k1 p1 t1) d).length ≤
        (venueAt c d).length + (if d1 = d then 1 else 0) := by
  rw [venueAt_updatePriceCache]
  by_cases hd : d1 = d
  · rw [if_pos hd, if_pos hd] at *
    have hvv : venueAt c d1 = venueAt c d := by rw [hd]
    rw [hvv]
    have hk1 : k ≠ k1 := fun he => hne ⟨hd, he.symm⟩
    have hbase : assocFind (assocSet (venueAt c d) k1 ⟨p1, t1⟩) k = some e0 := by
      rw [assocFind_set_ne _ _ _ _ hk1]
      exact hfind
    have hbaseN := assocKeys_nodup_set (venueAt c d) k1 (⟨p1, t1⟩ : PriceEntry) hN
    have hbaseLen := length_assocSet_le (venueAt c d) k1 (⟨p1, t1⟩ : PriceEntry)
    refine ⟨assocFind_cleanupVenue_of_fresh _ t1 k e0 hbaseN hbase hfresh1 ?_,
      cleanupVenue_nodup _ t1 hbaseN, ?_⟩
    · omega
    · have := cleanupVenue_length_le (assocSet (venueAt c d) k1 ⟨p1, t1⟩) t1
      omega
  · rw [if_neg hd, if_neg hd] at *
    refine ⟨assocFind_cleanupVenue_of_fresh _ t1 k e0 hN hfind hfresh1 (by omega),
      cleanupVenue_nodup _ t1 hN, ?_⟩
    have := cleanupVenue_length_le (venueAt c d) t1
    omega

/-- Strong preservation: a fresh entry for `(d, k)` survives any sequence
of writes to other keys, as long as the writes happen within the entry's
TTL window and venue `d` stays within the capacity limit. -/
theorem applyWrites_preserves_entry (d : δ) (k : κ) (e0 : PriceEntry)
    (ws : List (δ × κ × ℚ × Int)) (c : PriceCache δ κ)
    (hN : (assocKeys (venueAt c d)).Nodup)
    (hfind : assocFind (venueAt c d) k = some e0)
    (hk : ∀ w ∈ ws, ¬(w.1 = d ∧ w.2.1 = k))
    (hfresh : ∀ w ∈ ws, w.2.2.2 - e0.timestamp ≤ PRICE_CACHE_TTL)
    (hsz : (venueAt c d).length + (ws.countP fun w => decide (w.1 = d)) ≤ MAX_CACHE_SIZE) :
    assocFind (venueAt (applyWrites c ws) d) k = some e0 := by
  induction ws generalizing c with
  | nil => exact hfind
  | cons w t ih =>
    obtain ⟨d1, k1, p1, t1⟩ := w
    have hcount : (List.countP (fun w => decide (w.1 = d)) ((d1, k1, p1, t1) :: t)) =
        (List.countP (fun w => decide (w.1 = d)) t) + (if d1 = d then 1 else 0) := by
      rw [List.countP_cons]
      by_cases hd : d1 = d <;> simp [hd]
    have hstep := updatePriceCache_preserves c d1 k1 p1 t1 d k e0 hN hfind
      (hk (d1, k1, p1, t1) (List.mem_cons_self _ _))
      (hfresh (d1, k1, p1, t1) (List.mem_cons_self _ _)) (by omega)
    exact ih (updatePriceCache c d1 k1 p1 t1) hstep.2.1 hstep.1
      (fun w hw => hk w (List.mem_cons_of_mem _ hw))
      (fun w hw => hfresh w (List.mem_cons_of_mem _ hw)) (by omega)

/-- Weak preservation: whatever writes to other keys happen, the binding
for `(d, k)` either still holds the originally written entry or has been
evicted — it is never rebound to a different value. -/
theorem applyWrites_weak (d : δ) (k : κ) (e0 : PriceEntry)
    (ws : List (δ × κ × ℚ × Int)) (c : PriceCache δ κ)
    (hN : (assocKeys (venueAt c d)).Nodup)
    (hfind : assocFind (venueAt c d) k = some e0 ∨ assocFind (venueAt c d) k = none)
    (hk : ∀ w ∈ ws, ¬(w.1 = d ∧ w.2.1 = k)) :
    assocFind (venueAt (applyWrites c ws) d) k = some e0 ∨
      assocFind (venueAt (applyWrites c ws) d) k = none := by
  induction ws generalizing c with
  | nil => exact hfind
  | cons w t ih =>
    obtain ⟨d1, k1, p1, t1⟩ := w
    have hv := venueAt_updatePriceCache c d1 d k1 p1 t1
    have hbaseN :
        (assocKeys (if d1 = d then assocSet (venueAt c d1) k1 ⟨p1, t1⟩
          else venueAt c d)).Nodup := by
      by_cases hd : d1 = d
      · rw [if_pos hd]
        have hvv : venueAt c d1 = venueAt c d := by rw [hd]
        rw [hvv]
        exact assocKeys_nodup_set _ _ _ hN
      · rw [if_neg hd]
        exact hN
    have hbase :
        assocFind (if d1 = d then assocSet (venueAt c d1) k1 ⟨p1, t1⟩ else venueAt c d) k =
          some e0 ∨
        assocFind (if d1 = d then assocSet (venueAt c d1) k1 ⟨p1, t1⟩ else venueAt c d) k =
          none := by
      by_cases hd : d1 = d
      · rw [if_pos hd]
        have hvv : venueAt c d1 = venueAt c d := by rw [hd]
        rw [hvv]
        have hk1 : k ≠ k1 := fun he =>
          hk (d1, k1, p1, t1) (List.mem_cons_self _ _) ⟨hd, he.symm⟩
        rw [assocFind_set_ne _ _ _ _ hk1]
        exact hfind
      · rw [if_neg hd]
        exact hfind
    have hstep :
        assocFind (venueAt (updatePriceCache c d1 k1 p1 t1) d) k = some e0 ∨
        assocFind (venueAt (updatePriceCache c d1 k1 p1 t1) d) k = none := by
      rw [hv]
      rcases assocFind_cleanupVenue_weak
        (if d1 = d then assocSet (venueAt c d1) k1 ⟨p1, t1⟩ else venueAt c d) t1 k hbaseN
        with h | h
      · rw [h]
        exact hbase
      · exact Or.inr h
    have hstepN : (assocKeys (venueAt (updatePriceCache c d1 k1 p1 t1) d)).Nodup := by
      rw [hv]
      exact cleanupVenue_nodup _ t1 hbaseN
    exact ih (updatePriceCache c d1 k1 p1 t1) hstepN hstep
      fun w hw => hk w (List.mem_cons_of_mem _ hw)

end CachePreservation

/-- The binding produced by the write itself. -/
theorem updatePriceCache_writes_entry {δ κ : Type} [DecidableEq δ] [DecidableEq κ]
    (c : PriceCache δ κ) (d : δ) (k : κ) (p : ℚ) (T : Int)
    (hN : (assocKeys (venueAt c d)).Nodup)
    (hsz : (venueAt c d).length ≤ 999) :
    assocFind (venueAt (updatePriceCache c d k p T) d) k = some ⟨p, T⟩ ∧
      (assocKeys (venueAt (updatePriceCache c d k p T) d)).Nodup ∧
      (venueAt (updatePriceCache c d k p T) d).length ≤ (venueAt c d).length + 1 := by
  rw [venueAt_updatePriceCache]
  rw [if_pos rfl]
  have hbase : assocFind (assocSet (venueAt c d) k ⟨p, T⟩) k = some ⟨p, T⟩ :=
    assocFind_set_self _ _ _
  have hbaseN := assocKeys_nodup_set (venueAt c d) k (⟨p, T⟩ : PriceEntry) hN
  have hbaseLen := length_assocSet_le (venueAt c d) k (⟨p, T⟩ : PriceEntry)
  refine ⟨assocFind_cleanupVenue_of_fresh _ T k ⟨p, T⟩ hbaseN hbase
    (by simp [PRICE_CACHE_TTL]) ?_, cleanupVenue_nodup _ T hbaseN, ?_⟩
  · simp only [MAX_CACHE_SIZE]
    omega
  · have := cleanupVenue_length_le (assocSet (venueAt c d) k ⟨p, T⟩) T
    omega

/-- C3 (amended): a price written for `(venue, pair)` at time `T` is
returned by a read at time `t` exactly when `t - T ≤ 60000` ms, through
any sequence of intervening writes to other keys performed between `T`
and `t` — provided the venue's entry count stays within the 1000-entry
capacity (the original entry count plus the intervening writes to the
venue must not exceed 999).  Past capacity, the write-time cleanup evicts
the oldest entries even when they are fresh (see the counterexample). -/
theorem c3_ttl_read_after_write {δ κ : Type} [DecidableEq δ] [DecidableEq κ]
    (c : PriceCache δ κ) (d : δ) (k : κ) (p : ℚ) (T t : Int)
    (ws : List (δ × κ × ℚ × Int))
    (hN : (assocKeys (venueAt c d)).Nodup)
    (hk : ∀ w ∈ ws, ¬(w.1 = d ∧ w.2.1 = k))
    (hts : ∀ w ∈ ws, T ≤ w.2.2.2 ∧ w.2.2.2 ≤ t)
    (hTt : T ≤ t)
    (hsz : (venueAt c d).length + (ws.countP fun w => decide (w.1 = d)) ≤ 999) :
    (getPriceFromCache (applyWrites (updatePriceCache c d k p T) ws) d k t).1 =
      if t - T ≤ 60000 then some p else none := by
  obtain ⟨hfind1, hN1, hlen1⟩ :=
    updatePriceCache_writes_entry c d k p T hN (by omega)
  rw [getPriceFromCache_fst]
  by_cases hcase : t - T ≤ 60000
  · have hfinal := applyWrites_preserves_entry d k ⟨p, T⟩ ws
      (updatePriceCache c d k p T) hN1 hfind1 hk
      (fun w hw => by
        have := (hts w hw).2
        simp only [PRICE_CACHE_TTL]
        omega)
      (by simp only [MAX_CACHE_SIZE]; omega)
    rw [hfinal]
    simp only [PRICE_CACHE_TTL]
    rw [if_neg (by omega), if_pos hcase]
  · rcases applyWrites_weak d k ⟨p, T⟩ ws (updatePriceCache c d k p T) hN1
      (Or.inl hfind1) hk with h | h
    · rw [h]
      simp only [PRICE_CACHE_TTL]
      rw [if_pos (by omega), if_neg hcase]
    · rw [h, if_neg hcase]

/-- Witness for the amended C3, tracing the spec's example: price 0.52
written at `t = 0`; a read at `t = 59000` returns it, a read at
`t = 61000` finds it expired. -/
theorem c3_witness :
    (getPriceFromCache (applyWrites (updatePriceCache ([] : PriceCache Nat Nat)
      0 0 (52/100) 0) []) 0 0 59000).1 = some (52/100) ∧
    (getPriceFromCache (applyWrites (updatePriceCache ([] : PriceCache Nat Nat)
      0 0 (52/100) 0) []) 0 0 61000).1 = none := by
  have h1 := c3_ttl_read_after_write ([] : PriceCache Nat Nat) 0 0 (52/100) 0 59000 []
    (by simp [venueAt, assocFind, assocKeys]) (by simp) (by simp) (by norm_num)
    (by simp [venueAt, assocFind])
  have h2 := c3_ttl_read_after_write ([] : PriceCache Nat Nat) 0 0 (52/100) 0 61000 []
    (by simp [venueAt, assocFind, assocKeys]) (by simp) (by simp) (by norm_num)
    (by simp [venueAt, assocFind])
  rw [if_pos (by norm_num)] at h1
  rw [if_neg (by norm_num)] at h2
  exact ⟨h1, h2⟩

/-- When every entry is fresh and the venue is within capacity, the
cleanup is the identity. -/
theorem cleanupVenue_id {κ : Type} [DecidableEq κ] (vm : VenueMap κ) (now : Int)
    (hfresh : ∀ e ∈ vm, now - e.2.timestamp ≤ PRICE_CACHE_TTL)
    (hlen : vm.length ≤ MAX_CACHE_SIZE) : cleanupVenue vm now = vm := by
  unfold cleanupVenue
  dsimp only
  rw [List.filter_eq_self.mpr fun e he => by simpa using hfresh e he]
  rw [if_neg (by omega)]

/-- Writes go to the single venue `0`, so the whole cache stays a single
venue entry. -/
theorem updatePriceCache_single (vm : VenueMap Nat) (k : Nat) (p : ℚ) (t : Int) :
    updatePriceCache [((0 : Nat), vm)] 0 k p t =
      [((0 : Nat), cleanupVenue (assocSet vm k ⟨p, t⟩) t)] := rfl

/-- The venue map after the write of the tracked key at time 0 followed by
`m` writes of fresh pairs `1..m` at times `1..m`. -/
def c3VM (m : Nat) : VenueMap Nat :=
  (0, ⟨52/100, 0⟩) :: ((List.range m).map fun i => (i + 1, ⟨1, (i : Int) + 1⟩))

/-- The `m` interfering writes of the counterexample: pairs `1..m` of
venue `0`, written at times `1..m`. -/
def c3Writes (m : Nat) : List (Nat × Nat × ℚ × Int) :=
  (List.range m).map fun i => (0, i + 1, 1, (i : Int) + 1)

/-- Cache state after the tracked write and the first `m` interfering
writes. -/
def c3Partial (m : Nat) : PriceCache Nat Nat :=
  applyWrites (updatePriceCache [] 0 0 (52/100) 0) (c3Writes m)

theorem c3VM_succ (m : Nat) :
    c3VM (m + 1) = c3VM m ++ [(m + 1, ⟨1, (m : Int) + 1⟩)] := by
  unfold c3VM
  rw [List.range_succ, List.map_append]
  rfl

theorem c3VM_length (m : Nat) : (c3VM m).length = m + 1 := by
  simp [c3VM]

theorem c3VM_key_le (m : Nat) : ∀ pr ∈ c3VM m, pr.1 ≤ m := by
  intro pr hpr
  rcases List.mem_cons.mp hpr with rfl | hm
  · exact Nat.zero_le m
  · obtain ⟨i, hi, rfl⟩ := List.mem_map.mp hm
    exact Nat.succ_le_of_lt (List.mem_range.mp hi)

theorem c3VM_ts_bounds (m : Nat) :
    ∀ pr ∈ c3VM m, 0 ≤ pr.2.timestamp ∧ pr.2.timestamp ≤ (m : Int) := by
  intro pr hpr
  rcases List.mem_cons.mp hpr with rfl | hm
  · simp
  · obtain ⟨i, hi, rfl⟩ := List.mem_map.mp hm
    have := List.mem_range.mp hi
    dsimp only
    omega

theorem c3VM_sorted (m : Nat) : List.Sorted tsLE (c3VM m) := by
  unfold c3VM
  refine List.Pairwise.cons ?_ ?_
  · intro e he
    obtain ⟨i, hi, rfl⟩ := List.mem_map.mp he
    show tsLE _ _
    unfold tsLE
    dsimp only
    omega
  · refine List.Pairwise.map _ ?_ (List.pairwise_lt_range m)
    intro a b hab
    unfold tsLE
    dsimp only
    omega

theorem c3Partial_eq : ∀ m, m ≤ 999 → c3Partial m = [((0 : Nat), c3VM m)] := by
  intro m
  induction m with
  | zero =>
    intro _
    show updatePriceCache [] 0 0 (52/100) 0 = [((0 : Nat), c3VM 0)]
    have h0 : updatePriceCache ([] : PriceCache Nat Nat) 0 0 (52/100) 0 =
        [((0 : Nat), cleanupVenue (c3VM 0) 0)] := rfl
    rw [h0, cleanupVenue_id (c3VM 0) 0 (by
      intro e he
      have := c3VM_ts_bounds 0 e he
      simp only [PRICE_CACHE_TTL]
      omega) (by rw [c3VM_length]; simp [MAX_CACHE_SIZE])]
  | succ m ih =>
    intro hm
    have hm' : m ≤ 999 := Nat.le_of_succ_le hm
    have hsplit : c3Writes (m + 1) = c3Writes m ++ [(0, m + 1, 1, (m : Int) + 1)] := by
      unfold c3Writes
      rw [List.range_succ, List.map_append]
      rfl
    unfold c3Partial
    rw [hsplit]
    unfold applyWrites
    rw [List.foldl_append]
    have hpre : List.foldl (fun acc w => updatePriceCache acc w.1 w.2.1 w.2.2.1 w.2.2.2)
        (updatePriceCache [] 0 0 (52/100) 0) (c3Writes m) = [((0 : Nat), c3VM m)] :=
      ih hm'
    rw [hpre]
    show updatePriceCache [((0 : Nat), c3VM m)] 0 (m + 1) 1 ((m : Int) + 1) =
      [((0 : Nat), c3VM (m + 1))]
    rw [updatePriceCache_single]
    have hset : assocSet (c3VM m) (m + 1) ⟨1, (m : Int) + 1⟩ = c3VM (m + 1) := by
      rw [assocSet_of_not_mem _ _ _ (by
        intro hmem
        obtain ⟨pr, hpr, hk⟩ := List.mem_map.mp hmem
        have := c3VM_key_le m pr hpr
        omega), ← c3VM_succ]
    rw [hset, cleanupVenue_id (c3VM (m + 1)) ((m : Int) + 1) (by
      intro e he
      have := c3VM_ts_bounds (m + 1) e he
      simp only [PRICE_CACHE_TTL]
      omega) (by rw [c3VM_length]; simp only [MAX_CACHE_SIZE]; omega)]

/-- The venue map left behind by the 1000th interfering write: the
tracked pair 0 is gone, pairs `1..1000` remain. -/
def c3FinalVM : VenueMap Nat :=
  (List.range 1000).map fun i => (i + 1, ⟨1, (i : Int) + 1⟩)

/-- The capacity cleanup at the 1000th interfering write: all 1001
entries are fresh, so the TTL pass deletes nothing, the stable sort
leaves the timestamp-ordered map unchanged, and the one over-capacity
victim is the oldest entry — the tracked key 0. -/
theorem c3_cleanup_evicts :
    cleanupVenue (c3VM 1000) ((999 : Int) + 1) = c3FinalVM := by
  unfold cleanupVenue c3FinalVM
  dsimp only
  rw [List.filter_eq_self.mpr (fun e he => by
    have := c3VM_ts_bounds 1000 e he
    simp only [PRICE_CACHE_TTL, decide_eq_true_eq]
    omega)]
  rw [if_pos (by rw [c3VM_length]; norm_num [MAX_CACHE_SIZE])]
  rw [List.Sorted.insertionSort_eq (c3VM_sorted 1000), c3VM_length]
  have hcount : 1000 + 1 - MAX_CACHE_SIZE = 1 := by norm_num [MAX_CACHE_SIZE]
  rw [hcount]
  have htake : List.take 1 (c3VM 1000) = [((0 : Nat), (⟨52/100, 0⟩ : PriceEntry))] := by
    unfold c3VM
    rfl
  rw [htake]
  show List.filter _ (c3VM 1000) = _
  unfold c3VM
  rw [List.filter_cons_of_neg (by simp)]
  exact List.filter_eq_self.mpr fun e he => by
    obtain ⟨i, hi, rfl⟩ := List.mem_map.mp he
    simp

set_option maxRecDepth 8000 in
/-- C3 counterexample: the tracked price is written for `(venue 0, pair 0)`
at time 0; 1000 further writes hit other pairs of the same venue (never
pair 0), all within the TTL window; yet a read at `t = 1000` — well inside
the 60000 ms TTL — returns nothing, because the 1000th write's capacity
cleanup evicted the oldest (still fresh) entry. -/
theorem c3_counterexample :
    (∀ w ∈ c3Writes 1000, ¬(w.1 = 0 ∧ w.2.1 = 0)) ∧
    ((1000 : Int) - 0 ≤ 60000) ∧
    (getPriceFromCache (applyWrites (updatePriceCache ([] : PriceCache Nat Nat)
      0 0 (52/100) 0) (c3Writes 1000)) 0 0 1000).1 = none := by
  refine ⟨?_, by norm_num, ?_⟩
  · intro w hw
    obtain ⟨i, hi, rfl⟩ := List.mem_map.mp hw
    rintro ⟨-, hk⟩
    exact Nat.succ_ne_zero i hk
  · have hsplit : c3Writes 1000 = c3Writes 999 ++ [(0, 1000, 1, (999 : Int) + 1)] := by
      unfold c3Writes
      rw [List.range_succ, List.map_append]
      rfl
    rw [hsplit]
    show (getPriceFromCache (applyWrites (updatePriceCache ([] : PriceCache Nat Nat)
      0 0 (52/100) 0) (c3Writes 999 ++ [(0, 1000, 1, (999 : Int) + 1)])) 0 0 1000).1 = none
    unfold applyWrites
    rw [List.foldl_append]
    have hpre : List.foldl (fun acc w => updatePriceCache acc w.1 w.2.1 w.2.2.1 w.2.2.2)
        (updatePriceCache ([] : PriceCache Nat Nat) 0 0 (52/100) 0) (c3Writes 999) =
        [((0 : Nat), c3VM 999)] := c3Partial_eq 999 (by norm_num)
    rw [hpre]
    show (getPriceFromCache (updatePriceCache [((0 : Nat), c3VM 999)] 0 1000 1
      ((999 : Int) + 1)) 0 0 1000).1 = none
    rw [updatePriceCache_single]
    have hset : assocSet (c3VM 999) 1000 ⟨1, (999 : Int) + 1⟩ = c3VM 1000 := by
      rw [assocSet_of_not_mem _ _ _ (by
        intro hmem
        obtain ⟨pr, hpr, hk⟩ := List.mem_map.mp hmem
        have := c3VM_key_le 999 pr hpr
        omega)]
      exact (c3VM_succ 999).symm
    rw [hset, c3_cleanup_evicts]
    rw [getPriceFromCache_fst]
    have hv : venueAt [((0 : Nat), c3FinalVM)] 0 = c3FinalVM := rfl
    rw [hv]
    have hnone : assocFind c3FinalVM 0 = (none : Option PriceEntry) :=
      assocFind_eq_none _ _ fun pr hpr => by
        obtain ⟨i, hi, rfl⟩ := List.mem_map.mp hpr
        exact Nat.succ_ne_zero i
    rw [hnone]
